import Mathlib

/-!
Verification development for the HistoCoin artifact-discovery pipeline
(the `node/src` TypeScript sources and the packaged `downloads/histograph-node`
CLI of this repository).

Modelling conventions:
* JavaScript strings are modelled as `List Char` (`Str`); all inputs of
  interest are ASCII, so `toLowerCase`/`trim` are modelled on that range.
* The decimal literals of the licensing assessor are modelled as exact
  rationals; every reachable score is an integer multiple of `1/20`, on which
  `Number(x.toFixed(2))` is exact, so no floating-point deviation arises.
* Effects are passed explicitly: fetch outcomes as `Option`/sum values, the
  registry file as an explicit state value, timestamps and random identifiers
  as parameters.  Thrown JavaScript exceptions are modelled with `Except`.
-/

namespace HistoCoin

/-- JavaScript strings, modelled as lists of characters. -/
abbrev Str := List Char

/-- ASCII whitespace as matched by JavaScript `trim` and the regex class
`\s` on the inputs considered here. -/
def isJsWs (c : Char) : Bool :=
  c == ' ' || c == '\t' || c == '\n' || c == '\r' || c == '\x0b' || c == '\x0c'

/-- JavaScript `String.prototype.trim` (ASCII whitespace). -/
def jsTrim (s : Str) : Str :=
  ((s.dropWhile isJsWs).reverse.dropWhile isJsWs).reverse

/-- JavaScript `String.prototype.toLowerCase`, restricted to ASCII input. -/
def lowerStr (s : Str) : Str := s.map Char.toLower

/-- JavaScript `String.prototype.includes sub`(substring containment). -/
def jsIncludes (hay sub : Str) : Bool := decide (sub <:+: hay)

/-- Split a string at the first occurrence of `c`: the part before it, and
`some` remainder after it when `c` occurs (`none` when it does not). -/
def splitFirst (c : Char) : Str → Str × Option Str
  | [] => ([], none)
  | x :: xs =>
    if x = c then ([], some xs)
    else
      match splitFirst c xs with
      | (pre, rest) => (x :: pre, rest)

/-- Split a string at the last occurrence of `c`: `none` when `c` does not
occur, otherwise the parts before and after that occurrence. -/
def splitLast (c : Char) (s : Str) : Option (Str × Str) :=
  match splitFirst c s.reverse with
  | (_, none) => none
  | (revB, some revA) => some (revA.reverse, revB.reverse)

/-- Helper for `collapseWsRuns`: `inRun` records whether the previous
character was whitespace (whose run already emitted its single space). -/
def collapseWsAux (inRun : Bool) : Str → Str
  | [] => []
  | c :: cs =>
    if isJsWs c then
      if inRun then collapseWsAux true cs else ' ' :: collapseWsAux true cs
    else c :: collapseWsAux false cs

/-- JavaScript `replace(/\s+/g, " ")`: every maximal whitespace run becomes a
single space. -/
def collapseWsRuns (s : Str) : Str := collapseWsAux false s

/-- Licensing verdict produced by `assessCc0` (`cc0.ts`, packaged as
`downloads/histograph-node/cli/cc0.js`). -/
structure Cc0Verdict where
  isLikelyCc0 : Bool
  confidence : ℚ
  evidence : List Str
deriving DecidableEq, Repr

/-- Keyword table of `cc0.ts`: phrase and additive weight. -/
def KEYWORDS : List (Str × ℚ) :=
  [("cc0".toList, mkRat 2 5),
   ("creative commons zero".toList, mkRat 2 5),
   ("public domain".toList, mkRat 7 20),
   ("no rights reserved".toList, mkRat 3 10),
   ("open access".toList, mkRat 1 5),
   ("copyright free".toList, mkRat 1 5)]

/-- JavaScript `Number(x.toFixed(2))` for the non-negative scores arising in
`assessCc0`: round to two decimals, half up. -/
def round2 (q : ℚ) : ℚ := (⌊q * 100 + mkRat 1 2⌋ : ℚ) / 100

/-- Model of `assessCc0(text, extraEvidence)` from `cc0.ts`: sum the weights of
every matched phrase over the lower-cased text, add a bounded bonus for
externally supplied evidence, clamp at `1`, report the two-decimal rounding as
the confidence and `score ≥ 0.4` as the likelihood flag. -/
def assessCc0 (text : Str) (extraEvidence : List Str := []) : Cc0Verdict :=
  let haystack := lowerStr text
  let matched := KEYWORDS.filter (fun kw => jsIncludes haystack kw.1)
  let baseScore : ℚ := (matched.map (fun kw => kw.2)).sum
  let baseEvidence := matched.map (fun kw => kw.1)
  let score1 : ℚ :=
    if extraEvidence.length ≠ 0 then
      baseScore + min ((extraEvidence.length : ℚ) * mkRat 1 20) (mkRat 1 5)
    else baseScore
  let evidence :=
    if extraEvidence.length ≠ 0 then baseEvidence ++ extraEvidence
    else baseEvidence
  let score := min score1 1
  { isLikelyCc0 := decide (mkRat 2 5 ≤ score)
    confidence := round2 score
    evidence := evidence }

/-! JSON values and a model of `JSON.parse`, used by the relevance gate. -/

/-- Parsed JSON values. -/
inductive Json where
  | null
  | bool (b : Bool)
  | num (q : ℚ)
  | str (s : Str)
  | arr (elems : List Json)
  | obj (fields : List (Str × Json))
deriving Repr

/-- JSON whitespace. -/
def isJsonWs (c : Char) : Bool := c == ' ' || c == '\t' || c == '\n' || c == '\r'

/-- Skip leading JSON whitespace. -/
def skipWs (s : Str) : Str := s.dropWhile isJsonWs

/-- JSON string escape characters (the `\u` form lies outside the modelled
fragment and makes the parser fail). -/
def unescapeChar (c : Char) : Option Char :=
  if c = '"' then some '"'
  else if c = '\\' then some '\\'
  else if c = '/' then some '/'
  else if c = 'n' then some '\n'
  else if c = 't' then some '\t'
  else if c = 'r' then some '\r'
  else if c = 'b' then some '\x08'
  else if c = 'f' then some '\x0c'
  else none

/-- Parse the remainder of a JSON string literal (after the opening quote),
returning the decoded string and the rest of the input. -/
def parseStringBody : Str → Option (Str × Str)
  | [] => none
  | '"' :: rest => some ([], rest)
  | '\\' :: e :: rest =>
    match unescapeChar e, parseStringBody rest with
    | some c, some (s, r) => some (c :: s, r)
    | _, _ => none
  | c :: rest =>
    match parseStringBody rest with
    | some (s, r) => some (c :: s, r)
    | none => none

/-- Accumulate decimal digits: value so far, digit count, then the rest. -/
def parseDigitsAux : Nat → Nat → Str → Nat × Nat × Str
  | acc, n, [] => (acc, n, [])
  | acc, n, c :: rest =>
    if c.isDigit then parseDigitsAux (acc * 10 + (c.toNat - 48)) (n + 1) rest
    else (acc, n, c :: rest)

/-- Build the exact rational value of a JSON number from its parts. -/
def ratFromParts (neg : Bool) (ip fp fc : Nat) (expNeg : Bool) (ev : Nat) : ℚ :=
  let mantissa : Nat := ip * 10 ^ fc + fp
  let num : Int := if neg then -(mantissa : Int) else (mantissa : Int)
  if expNeg then mkRat num (10 ^ fc * 10 ^ ev)
  else mkRat (num * ((10 ^ ev : Nat) : Int)) (10 ^ fc)

/-- Parse a JSON number. -/
def parseNumber (s : Str) : Option (Json × Str) :=
  let (neg, s1) := match s with | '-' :: r => (true, r) | _ => (false, s)
  let (intPart, intCount, s2) := parseDigitsAux 0 0 s1
  if intCount = 0 then none
  else
    match s2 with
    | '.' :: r =>
      let (fracPart, fracCount, s3) := parseDigitsAux 0 0 r
      if fracCount = 0 then none
      else parseNumberExp neg intPart fracPart fracCount s3
    | _ => parseNumberExp neg intPart 0 0 s2
where
  /-- Parse the optional exponent suffix and finish the number. -/
  parseNumberExp (neg : Bool) (ip fp fc : Nat) (s : Str) : Option (Json × Str) :=
    match s with
    | 'e' :: r | 'E' :: r =>
      let (en, r1) := match r with
        | '+' :: rr => (false, rr)
        | '-' :: rr => (true, rr)
        | _ => (false, r)
      let (ev, ec, r2) := parseDigitsAux 0 0 r1
      if ec = 0 then none
      else some (.num (ratFromParts neg ip fp fc en ev), r2)
    | _ => some (.num (ratFromParts neg ip fp fc false 0), s)

mutual

/-- Parse one JSON value; `fuel` bounds the recursion depth and is always
instantiated with more than the input length, which suffices for every
well-formed input. -/
def parseValue : Nat → Str → Option (Json × Str)
  | 0, _ => none
  | fuel + 1, s =>
    match skipWs s with
    | [] => none
    | '"' :: rest =>
      match parseStringBody rest with
      | some (str, r) => some (.str str, r)
      | none => none
    | '[' :: rest =>
      match skipWs rest with
      | ']' :: r => some (.arr [], r)
      | _ => parseArrayElems fuel rest []
    | '{' :: rest =>
      match skipWs rest with
      | '}' :: r => some (.obj [], r)
      | _ => parseObjectFields fuel rest []
    | 't' :: 'r' :: 'u' :: 'e' :: r => some (.bool true, r)
    | 'f' :: 'a' :: 'l' :: 's' :: 'e' :: r => some (.bool false, r)
    | 'n' :: 'u' :: 'l' :: 'l' :: r => some (.null, r)
    | s1 => parseNumber s1

/-- Parse the elements of a non-empty JSON array. -/
def parseArrayElems : Nat → Str → List Json → Option (Json × Str)
  | 0, _, _ => none
  | fuel + 1, s, acc =>
    match parseValue fuel s with
    | none => none
    | some (v, r) =>
      match skipWs r with
      | ',' :: r2 => parseArrayElems fuel r2 (acc ++ [v])
      | ']' :: r2 => some (.arr (acc ++ [v]), r2)
      | _ => none

/-- Parse the fields of a non-empty JSON object. -/
def parseObjectFields : Nat → Str → List (Str × Json) → Option (Json × Str)
  | 0, _, _ => none
  | fuel + 1, s, acc =>
    match skipWs s with
    | '"' :: rest =>
      match parseStringBody rest with
      | none => none
      | some (key, r) =>
        match skipWs r with
        | ':' :: r2 =>
          match parseValue fuel r2 with
          | none => none
          | some (v, r3) =>
            match skipWs r3 with
            | ',' :: r4 => parseObjectFields fuel r4 (acc ++ [(key, v)])
            | '}' :: r4 => some (.obj (acc ++ [(key, v)]), r4)
            | _ => none
        | _ => none
    | _ => none

end

/-- Model of `JSON.parse` on the JSON fragment without `\u` escapes; `none`
models a thrown `SyntaxError`. -/
def parseJson (s : Str) : Option Json :=
  match parseValue (s.length + 1) s with
  | some (j, rest) => if skipWs rest = [] then some j else none
  | none => none

/-- JavaScript property access on a parsed JSON value: `undefined` (`none`)
on non-objects; on objects the last binding of the key wins, matching
`JSON.parse` duplicate-key semantics. -/
def lookupField (j : Json) (k : Str) : Option Json :=
  match j with
  | .obj fields =>
    (fields.filterMap (fun f => if f.1 = k then some f.2 else none)).getLast?
  | _ => none

/-! Relevance gate (`llama.ts`) and the per-artifact driver step. -/

/-- Model of `extractJsonBlock` (`llama.ts`): `indexOf("\x7b")` and
`lastIndexOf("\x7d")`, then the inclusive slice between them; `null` when
either brace is missing or the last closing brace does not lie strictly after
the first opening brace.  Implemented by splitting at the first opening brace
and then at the last closing brace of the remainder, which yields exactly
that slice: the last closing brace lies after the first opening brace exactly
when the remainder contains a closing brace. -/
def extractJsonBlock (text : Str) : Option Str :=
  match splitFirst '{' text with
  | (_, none) => none
  | (_, some rest) =>
    match splitLast '}' rest with
    | none => none
    | some (a, _) => some ('{' :: (a ++ ['}']))

/-- Specification-side scanner: inside a brace block at depth `d`, consume
characters until the depth returns to zero, returning the whole block. -/
def scanBlock : Str → Nat → Str → Option Str
  | [], _, _ => none
  | c :: rest, d, acc =>
    if c = '}' then
      if d = 1 then some (('}' :: acc).reverse)
      else scanBlock rest (d - 1) ('}' :: acc)
    else if c = '{' then scanBlock rest (d + 1) ('{' :: acc)
    else scanBlock rest d (c :: acc)

/-- Specification-side definition, following the spec words rather than the
code: the first balanced `\x7b...\x7d` substring of the text (earliest start
position; at that start, up to the first return to depth zero). -/
def firstBalancedBlock : Str → Option Str
  | [] => none
  | c :: rest =>
    if c = '{' then
      match scanBlock rest 1 ['{'] with
      | some b => some b
      | none => firstBalancedBlock rest
    else firstBalancedBlock rest

/-- The text of one `output` chunk: `chunk.text ?? chunk.content ?? ""`,
restricted to string-valued fields (non-string, non-null field values would
be stringified by `join`; they do not occur in the modelled fragment and are
mapped to the empty string). -/
def chunkText (c : Json) : Str :=
  match lookupField c "text".toList with
  | some (.str s) => s
  | some .null | none =>
    (match lookupField c "content".toList with
     | some (.str s) => s
     | _ => [])
  | some _ => []

/-- Model of `data.response ?? data.output?.map(...).join("") ?? ""` followed
by the requirement that the result be a string: a non-string `response` field
(or a non-array, non-null `output` field) makes the subsequent `.trim()` or
`.map` call throw, which the surrounding `try` turns into `null`; `none`
models those throwing paths. -/
def getRawText (data : Json) : Option Str :=
  match lookupField data "response".toList with
  | some (.str s) => some s
  | some .null | none =>
    (match lookupField data "output".toList with
     | some (.arr chunks) => some (chunks.map chunkText).flatten
     | some .null | none => some []
     | some _ => none)
  | some _ => none

/-- Outcome of the single `fetch` performed by `classifyArtifactWithLlama`:
a thrown network error, or a response with its `ok` flag and body text. -/
inductive LlamaHttp where
  | networkError
  | httpResponse (ok : Bool) (body : Str)

/-- Model of `classifyArtifactWithLlama` (`llama.ts`).  The result is the raw
parsed JSON block (the TypeScript code casts it to `LlamaAssessment` without
runtime validation).  Every throwing path — network failure, envelope parse
failure, a non-string raw field, block parse failure — is caught by the
surrounding `try`/`catch` and returns `null`; together with the non-2xx and
missing-block early returns, the function never throws to its caller. -/
def classifyArtifactWithLlama (outcome : LlamaHttp) : Option Json :=
  match outcome with
  | .networkError => none
  | .httpResponse ok body =>
    if !ok then none
    else
      match parseJson body with
      | none => none
      | some data =>
        match getRawText data with
        | none => none
        | some raw =>
          match extractJsonBlock (jsTrim raw) with
          | none => none
          | some block => parseJson block

/-- Decision taken by the per-artifact body of `processSources` (`index.ts`). -/
inductive StepDecision where
  | skipNonCc0
  | llamaReject
  | proceedToSubmit
deriving DecidableEq, Repr

/-- Model of the per-artifact loop body of `processSources`: skip when the
licensing heuristic says unlikely; when the relevance gate is enabled and
returned a verdict whose `verdict` field is the string `"reject"`, skip;
otherwise proceed to evaluate submission (dry-run print or POST). -/
def artifactStep (cc0Likely : Bool) (llamaEnabled : Bool)
    (assessment : Option Json) : StepDecision :=
  if !cc0Likely then .skipNonCc0
  else if llamaEnabled then
    match assessment with
    | some j =>
      match lookupField j "verdict".toList with
      | some (.str s) =>
        if s = "reject".toList then .llamaReject else .proceedToSubmit
      | _ => .proceedToSubmit
    | none => .proceedToSubmit
  else .proceedToSubmit

/-! URL model: the fragment of the WHATWG `URL` class exercised by
`normalizeUrl` (`sourceIndex.ts`) and `resolveUrl` (`scraper.ts`).  The model
covers absolute `http(s)` URLs with host, path, query and fragment, and
relative references against them; userinfo, ports, IPv6 hosts, dot-segment
normalisation and percent-encoding needs lie outside the modelled fragment
(the parser rejects inputs needing them). -/

/-- Characters allowed in modelled host names: ASCII letters, digits, dot and
hyphen. -/
def isHostChar (c : Char) : Bool := c.isAlphanum || c == '.' || c == '-'

/-- Parts of a parsed URL.  Scheme and host are stored lower-cased, as the
WHATWG parser normalises them. -/
structure UrlParts where
  scheme : Str
  host : Str
  path : Str
  query : Option Str
  frag : Option Str
deriving Repr, DecidableEq

/-- Strip a case-insensitive `http://` or `https://` prefix, returning the
lower-cased scheme and the remainder. -/
def stripSchemePrefix (s : Str) : Option (Str × Str) :=
  if lowerStr (s.take 7) = "http://".toList then some ("http".toList, s.drop 7)
  else if lowerStr (s.take 8) = "https://".toList then some ("https".toList, s.drop 8)
  else none

/-- Model of the WHATWG `URL` parser on absolute `http(s)` URLs of the
modelled fragment: split off the fragment at the first `#`, the query at the
first `?`, require a scheme prefix, lower-case the host and require it
non-empty and made of host characters. -/
def parseUrl (s : Str) : Option UrlParts :=
  match splitFirst '#' s with
  | (beforeHash, frag) =>
    match splitFirst '?' beforeHash with
    | (core, query) =>
      match stripSchemePrefix core with
      | none => none
      | some (scheme, rest) =>
        let hostRaw := rest.takeWhile (fun c => c ≠ '/')
        let path := rest.drop hostRaw.length
        let host := lowerStr hostRaw
        if host ≠ [] ∧ host.all isHostChar then
          some { scheme := scheme, host := host, path := path,
                 query := query, frag := frag }
        else none

/-- WHATWG serialisation with the fragment cleared (`url.hash = ""` followed
by `toString()`): empty paths serialise as `/`. -/
def serializeNoFrag (p : UrlParts) : Str :=
  p.scheme ++ "://".toList ++ p.host ++
    (if p.path = [] then "/".toList else p.path) ++
    (match p.query with | some q => '?' :: q | none => [])

/-- Full WHATWG serialisation including the fragment. -/
def serializeFull (p : UrlParts) : Str :=
  serializeNoFrag p ++ (match p.frag with | some f => '#' :: f | none => [])

/-- Model of the `^(https?:)?\/\/` test of `normalizeUrl` (case-insensitive
optional scheme, then two slashes). -/
def hasSchemeOrProtoRel (s : Str) : Bool :=
  "//".toList.isPrefixOf s ||
  "http://".toList.isPrefixOf (lowerStr s) ||
  "https://".toList.isPrefixOf (lowerStr s)

/-- JavaScript `replace(/\/$/, "")`: strip one trailing slash. -/
def stripTrailingSlash (s : Str) : Str :=
  match s.getLast? with
  | some '/' => s.dropLast
  | _ => s

/-- Model of `normalizeUrl` (`sourceIndex.ts`): trim; reject empty input;
prepend `https://` when the scheme test fails; parse as a WHATWG URL
(`Invalid URL` on failure, modelled as `Except.error`); clear the fragment;
serialise and strip one trailing slash. -/
def normalizeUrl (raw : Str) : Except Str Str :=
  let trimmed := jsTrim raw
  if trimmed = [] then .error "URL cannot be empty".toList
  else
    let candidate :=
      if hasSchemeOrProtoRel trimmed then trimmed
      else "https://".toList ++ trimmed
    match parseUrl candidate with
    | some p => .ok (stripTrailingSlash (serializeNoFrag p))
    | none => .error ("Invalid URL: ".toList ++ trimmed)

/-- Does the string start with an explicit `http(s)://` scheme? -/
def hasExplicitScheme (s : Str) : Bool :=
  "http://".toList.isPrefixOf (lowerStr s) ||
  "https://".toList.isPrefixOf (lowerStr s)

/-- Merge a relative path reference with a base path: everything up to and
including the last slash of the base path, then the reference. -/
def mergePath (bpath rel : Str) : Str :=
  match splitLast '/' bpath with
  | some (dir, _) => dir ++ '/' :: rel
  | none => '/' :: rel

/-- Model of `new URL(rel, base).toString()` on the modelled fragment: an
absolute reference ignores the base; a protocol-relative reference takes the
base scheme; otherwise the reference replaces the fragment, the query, the
path, or merges with the base path.  `none` models the thrown `TypeError` on
unparseable input. -/
def resolveUrlOpt (base rel : Str) : Option Str :=
  if hasExplicitScheme rel then (parseUrl rel).map serializeFull
  else if "//".toList.isPrefixOf rel then
    match parseUrl base with
    | some b => (parseUrl (b.scheme ++ ':' :: rel)).map serializeFull
    | none => none
  else
    match parseUrl base with
    | none => none
    | some b =>
      match rel with
      | [] => some (serializeFull { b with frag := none })
      | '#' :: f => some (serializeFull { b with frag := some f })
      | '?' :: q0 =>
        match splitFirst '#' q0 with
        | (q, f) => some (serializeFull { b with query := some q, frag := f })
      | '/' :: _ =>
        match splitFirst '#' rel with
        | (beforeHash, f) =>
          match splitFirst '?' beforeHash with
          | (p, q) => some (serializeFull { b with path := p, query := q, frag := f })
      | _ =>
        match splitFirst '#' rel with
        | (beforeHash, f) =>
          match splitFirst '?' beforeHash with
          | (p0, q) =>
            some (serializeFull
              { b with path := mergePath b.path p0, query := q, frag := f })

/-- Model of `resolveUrl` (`scraper.ts`): absolutise against the base, and
fall back to the raw value when `new URL` throws. -/
def resolveUrl (base maybeRelative : Str) : Str :=
  match resolveUrlOpt base maybeRelative with
  | some u => u
  | none => maybeRelative

/-! Scraper data model (`types.ts`) and traversal engine (`scraper.ts`). -/

/-- Source kind tag. -/
inductive SourceKind where
  | generic
  | met_api
deriving Repr, DecidableEq

/-- Collection traversal rules (`CollectionTraversal` in `types.ts`). -/
structure CollectionTraversal where
  listingUrls : Option (List Str) := none
  searchUrlTemplate : Option Str := none
  searchTerms : Option (List Str) := none
  resultItemSelector : Str
  linkAttribute : Option Str := none
  maxItems : Option Nat := none
deriving Repr, DecidableEq

/-- A configured source (`MiningSource` in `types.ts`). -/
structure MiningSource where
  id : Str
  name : Str
  baseUrl : Str
  type : SourceKind := .generic
  notes : Option Str := none
  priority : Option Int := none
  collection : Option CollectionTraversal := none
deriving Repr, DecidableEq

/-- Characters `encodeURIComponent` leaves unescaped. -/
def isUnreservedUriChar (c : Char) : Bool :=
  c.isAlphanum || c == '-' || c == '_' || c == '.' || c == '!' ||
  c == '~' || c == '*' || c == '\'' || c == '(' || c == ')'

/-- UTF-8 bytes of a character. -/
def utf8Bytes (c : Char) : List Nat :=
  let n := c.toNat
  if n < 0x80 then [n]
  else if n < 0x800 then [0xC0 + n / 0x40, 0x80 + n % 0x40]
  else if n < 0x10000 then
    [0xE0 + n / 0x1000, 0x80 + n / 0x40 % 0x40, 0x80 + n % 0x40]
  else
    [0xF0 + n / 0x40000, 0x80 + n / 0x1000 % 0x40,
     0x80 + n / 0x40 % 0x40, 0x80 + n % 0x40]

/-- Upper-case hexadecimal digit. -/
def hexDigit (n : Nat) : Char :=
  if n < 10 then Char.ofNat (48 + n) else Char.ofNat (55 + n)

/-- JavaScript `encodeURIComponent`: percent-encode every UTF-8 byte of each
character outside the unreserved set. -/
def encodeURIComponent (s : Str) : Str :=
  (s.map (fun c =>
    if isUnreservedUriChar c then [c]
    else ((utf8Bytes c).map
      (fun b => ['%', hexDigit (b / 16), hexDigit (b % 16)])).flatten)).flatten

/-- JavaScript `String.prototype.replace` with a string pattern: replace the
first occurrence only. -/
def replaceFirst (s pat rep : Str) : Str :=
  if pat = [] then rep ++ s else go s
where
  /-- Scan for the first occurrence of the (non-empty) pattern. -/
  go : Str → Str
    | [] => []
    | c :: cs =>
      if pat.isPrefixOf (c :: cs) then rep ++ (c :: cs).drop pat.length
      else c :: go cs

/-- Model of `buildListingUrls` (`scraper.ts`): the static listing list, then
one templated search URL per search term (term trimmed, URI-encoded and
substituted for the first `\x7bquery\x7d`); the base URL alone when both are
absent or empty. -/
def buildListingUrls (traversal : CollectionTraversal) (fallbackBase : Str) :
    List Str :=
  let fromList :=
    match traversal.listingUrls with
    | some urls => urls
    | none => []
  let fromSearch :=
    match traversal.searchUrlTemplate, traversal.searchTerms with
    | some tpl, some terms =>
      if tpl ≠ [] ∧ terms.length ≠ 0 then
        terms.map (fun term =>
          replaceFirst tpl "\x7bquery\x7d".toList (encodeURIComponent (jsTrim term)))
      else []
    | _, _ => []
  let urls := fromList ++ fromSearch
  if urls = [] then [fallbackBase] else urls

/-- Abstraction of a fetched HTML page as the scraper sees it through
cheerio: `anchors` lists the configured attribute's values of the elements
matched by the traversal's selector, in document order (`none` when the
attribute is absent on a matched element); the remaining fields are the
pieces `parseHtml` reads after removing the script/style/noscript/nav/footer
noise nodes, with the empty string standing for an absent tag or attribute,
matching the `|| ""` defaults of the code. -/
structure PageModel where
  anchors : List (Option Str) := []
  titleTag : Str := []
  ogTitle : Str := []
  metaDescription : Str := []
  ogDescription : Str := []
  ogImage : Str := []
  firstImgSrc : Str := []
  bodyText : Str := []

/-- A scraped artifact (`ScrapedArtifact` in `types.ts`); the free-form
metadata map is flattened into its fields. -/
structure ScrapedArtifact where
  sourceId : Str
  sourceName : Str
  url : Str
  title : Str
  summary : Str
  imageUrl : Option Str
  cc0 : Cc0Verdict
  titleCandidates : List Str
  descriptionCandidates : List Str
  sourceNotes : Option Str
  listingUrl : Option Str
  rawTextSnippet : Str
  scrapedAt : Str

/-- Model of `parseHtml` (`scraper.ts`); `now` is the capture timestamp
(`new Date().toISOString()`), passed as a parameter. -/
def parseHtml (source : MiningSource) (targetUrl : Str) (page : PageModel)
    (listingUrl : Option Str) (now : Str) : ScrapedArtifact :=
  let titleText := page.titleTag
  let title := jsTrim (if titleText = [] then source.name else titleText)
  let text := jsTrim (collapseWsRuns page.bodyText)
  let snippet := text.take 2000
  let descriptionMeta := page.metaDescription
  let ogTitle := page.ogTitle
  let ogDesc := page.ogDescription
  let imageCandidate : Option Str :=
    if page.ogImage ≠ [] then some page.ogImage
    else if page.firstImgSrc ≠ [] then some page.firstImgSrc
    else none
  let image := imageCandidate.map (fun cand => resolveUrl targetUrl cand)
  let cc0 := assessCc0 (snippet ++ ' ' :: (descriptionMeta ++ ' ' :: ogDesc)) []
  let summary :=
    if ogDesc ≠ [] then ogDesc
    else if descriptionMeta ≠ [] then descriptionMeta
    else snippet.take 360
  { sourceId := source.id
    sourceName := source.name
    url := targetUrl
    title := if title ≠ [] then title else if ogTitle ≠ [] then ogTitle else source.name
    summary := summary
    imageUrl := image
    cc0 := cc0
    titleCandidates := [title, ogTitle].filter (fun s => !s.isEmpty)
    descriptionCandidates := [descriptionMeta, ogDesc].filter (fun s => !s.isEmpty)
    sourceNotes := source.notes
    listingUrl := listingUrl
    rawTextSnippet := snippet
    scrapedAt := now }

/-- A discovered detail link: absolute URL plus the listing page it came
from. -/
structure DetailLink where
  url : Str
  listing : Str
deriving Repr, DecidableEq

/-- Model of the `$(selector).each` callback loop of `scrapeCollectionSource`
over one listing page: stop (`return false`) once the accumulated list
reaches the cap; skip elements without the attribute; resolve each value
against the listing URL; skip exact duplicates. -/
def collectAnchors (listingUrl : Str) (m : Nat) :
    List (Option Str) → List DetailLink → List DetailLink
  | [], acc => acc
  | a :: rest, acc =>
    if m ≤ acc.length then acc
    else
      match a with
      | none => collectAnchors listingUrl m rest acc
      | some raw =>
        if acc.any (fun e => e.url == resolveUrl listingUrl raw) then
          collectAnchors listingUrl m rest acc
        else
          collectAnchors listingUrl m rest
            (acc ++ [⟨resolveUrl listingUrl raw, listingUrl⟩])

/-- Model of the listing-URL loop of `scrapeCollectionSource`: fetch each
listing in order (failures are soft skips), collect anchors up to the cap,
and break out of the loop once the cap is reached.  Also returns the trace of
listing URLs fetched, in order. -/
def collectListings (web : Str → Option PageModel) (m : Nat) :
    List Str → List DetailLink → List DetailLink × List Str
  | [], acc => (acc, [])
  | u :: rest, acc =>
    match web u with
    | none =>
      match collectListings web m rest acc with
      | (links, trace) => (links, u :: trace)
    | some page =>
      let acc1 := collectAnchors u m page.anchors acc
      if m ≤ acc1.length then (acc1, [u])
      else
        match collectListings web m rest acc1 with
        | (links, trace) => (links, u :: trace)

/-- Model of the detail-fetch loop of `scrapeCollectionSource`: one fetch per
collected candidate, in order; failed fetches are soft skips; each success
parses into one artifact tagged with its listing URL.  Also returns the trace
of detail URLs fetched. -/
def fetchDetails (web : Str → Option PageModel) (source : MiningSource)
    (now : Str) : List DetailLink → List ScrapedArtifact × List Str
  | [] => ([], [])
  | l :: ls =>
    match web l.url, fetchDetails web source now ls with
    | none, (arts, trace) => (arts, l.url :: trace)
    | some page, (arts, trace) =>
      (parseHtml source l.url page (some l.listing) now :: arts, l.url :: trace)

/-- Result of a collection traversal, instrumented with the collected
candidate list and the listing/detail fetch traces. -/
structure TraversalResult where
  artifacts : List ScrapedArtifact
  candidates : List DetailLink
  listingTrace : List Str
  detailTrace : List Str

/-- Model of `scrapeCollectionSource` (`scraper.ts`). -/
def scrapeCollectionSource (source : MiningSource)
    (traversal : CollectionTraversal) (web : Str → Option PageModel)
    (now : Str) : TraversalResult :=
  let listingUrls := buildListingUrls traversal source.baseUrl
  if listingUrls = [] then ⟨[], [], [], []⟩
  else
    let m := traversal.maxItems.getD 8
    let c := collectListings web m listingUrls []
    if c.1 = [] then ⟨[], c.1, c.2, []⟩
    else
      let d := fetchDetails web source now c.1
      ⟨d.1, c.1, c.2, d.2⟩

/-- Model of `scrapeSource` (`scraper.ts`): with a collection spec, run the
collection traversal; without one, fetch the base URL once and parse at most
one artifact from it. -/
def scrapeSource (source : MiningSource) (web : Str → Option PageModel)
    (now : Str) : List ScrapedArtifact :=
  match source.collection with
  | some traversal => (scrapeCollectionSource source traversal web now).artifacts
  | none =>
    match web source.baseUrl with
    | none => []
    | some page => [parseHtml source source.baseUrl page none now]

/-! Registry store (`sourceIndex.ts`).  The shared JSON index file is
modelled as an explicit state value (`none` when the file does not exist),
and each operation returns the new state together with the number of file
writes it performed. -/

/-- Characters kept by the slug pattern `[a-z0-9]` (applied after
lower-casing). -/
def isSlugChar (c : Char) : Bool := c.isLower || c.isDigit

/-- Collapse each maximal run of non-slug characters to one hyphen
(JavaScript `replace(/[^a-z0-9]+/g, "-")`); `inRun` records whether the
current run already emitted its hyphen. -/
def collapseNonSlug (inRun : Bool) : Str → Str
  | [] => []
  | c :: cs =>
    if isSlugChar c then c :: collapseNonSlug false cs
    else if inRun then collapseNonSlug true cs
    else '-' :: collapseNonSlug true cs

/-- Strip leading and trailing hyphens (`replace(/^-+|-+$/g, "")`). -/
def stripDashes (s : Str) : Str :=
  ((s.dropWhile (fun c => c == '-')).reverse.dropWhile (fun c => c == '-')).reverse

/-- Model of `slugify` (`sourceIndex.ts`); `uuid8` stands for the first eight
characters of a fresh random UUID. -/
def slugify (input : Str) (uuid8 : Str) : Str :=
  let slug := (stripDashes (collapseNonSlug false (lowerStr input))).take 40
  if slug = [] then "source-".toList ++ uuid8 else slug

/-- The registry index document: its `sources` array. -/
abbrev SourceIndex := List MiningSource

/-- Result of `addSourceToIndex`. -/
structure AddSourceResult where
  added : Bool
  source : MiningSource
deriving Repr, DecidableEq

/-- Model of `ensureIndexFile`: materialise an empty index when the file is
missing (one write), otherwise leave the file alone. -/
def ensureIndexFile (fs : Option SourceIndex) : Option SourceIndex × Nat :=
  match fs with
  | none => (some [], 1)
  | some idx => (some idx, 0)

/-- Model of `readIndex`: ensure the file exists, then read the full index.
Returns the parsed index, the file state and the write count. -/
def readIndex (fs : Option SourceIndex) : SourceIndex × Option SourceIndex × Nat :=
  match ensureIndexFile fs with
  | (fs1, w) =>
    match fs1 with
    | some idx => (idx, fs1, w)
    | none => ([], fs1, w)

/-- Hostname of an already-normalised URL.  `addSourceToIndex` re-parses the
normalised URL with `new URL`; on the output of `normalizeUrl` this cannot
fail, so the model totalises the hostname read with an empty fallback. -/
def hostnameOf (s : Str) : Str :=
  match parseUrl s with
  | some p => p.host
  | none => []

/-- Model of `addSourceToIndex` (`sourceIndex.ts`) over the explicit file
state: normalise the URL (exceptions modelled as `Except.error`), re-read the
whole index, return the existing entry unchanged on a case-insensitive
normalised-URL match, otherwise append a freshly named entry and write the
whole index back.  `uuid6`/`uuid8` stand for the random UUID slices; the
returned `Nat` counts file writes. -/
def addSourceToIndex (fs : Option SourceIndex) (url : Str)
    (name : Option Str) (type : Option SourceKind) (notes : Option Str)
    (priority : Option Int) (uuid6 uuid8 : Str) :
    Except Str (AddSourceResult × Option SourceIndex × Nat) :=
  match normalizeUrl url with
  | .error err => .error err
  | .ok baseUrl =>
  match readIndex fs with
  | (index, fs1, w1) =>
    match index.find? (fun src => lowerStr src.baseUrl == lowerStr baseUrl) with
    | some existing => .ok (⟨false, existing⟩, fs1, w1)
    | none =>
      let inferredName :=
        match name with
        | some n => if n ≠ [] then n else hostnameOf baseUrl ++ " archive".toList
        | none => hostnameOf baseUrl ++ " archive".toList
      let source : MiningSource :=
        { id := slugify inferredName uuid8 ++ '-' :: uuid6
          name := inferredName
          baseUrl := baseUrl
          type := type.getD .generic
          notes := notes
          priority := priority }
      .ok (⟨true, source⟩, some (index ++ [source]), w1 + 1)

/-! Source resolver (`index.ts` `resolveSources`) and the remote source list
(`config.ts` `loadSourcesFromMaster`). -/

/-- A raw source record as returned by the master `/sources` endpoint. -/
structure RawRemoteSource where
  id : Option Int := none
  name : Option Str := none
  base_url : Option Str := none
  baseUrl : Option Str := none
deriving Repr, DecidableEq

/-- JavaScript `String(n)` on integers. -/
def intToStr (i : Int) : Str :=
  match i with
  | .ofNat n => Nat.toDigits 10 n
  | .negSucc n => '-' :: Nat.toDigits 10 (n + 1)

/-- Outcome of the `fetch` against the master `/sources` endpoint. -/
inductive MasterOutcome where
  | networkError
  | response (ok : Bool) (items : List RawRemoteSource)

/-- Normalisation of one remote item (the `data.map` body of
`loadSourcesFromMaster`): `String(item.id ?? item.base_url ?? randomUUID())`
for the id, name and base-URL fallback chains, kind `generic`. -/
def normalizeRemoteItem (uuidFor : Nat → Str) (p : Nat × RawRemoteSource) :
    MiningSource :=
  { id :=
      match p.2.id with
      | some n => intToStr n
      | none =>
        match p.2.base_url with
        | some b => b
        | none => uuidFor p.1
    name := p.2.name.getD (p.2.base_url.getD (p.2.baseUrl.getD
      "Unknown Source".toList))
    baseUrl := p.2.base_url.getD (p.2.baseUrl.getD [])
    type := .generic }

/-- Model of `loadSourcesFromMaster` (`config.ts`): a network error or
non-2xx response throws; otherwise every item is normalised and entries
without a resolvable base URL are filtered out.  `uuidFor` supplies the
random UUID for the item at each index. -/
def loadSourcesFromMaster (outcome : MasterOutcome) (uuidFor : Nat → Str) :
    Except Str (List MiningSource) :=
  match outcome with
  | .networkError => .error "fetch failed".toList
  | .response ok items =>
    if !ok then .error "Failed to fetch sources from master".toList
    else
      .ok ((items.enum.map (normalizeRemoteItem uuidFor)).filter
        (fun s => !s.baseUrl.isEmpty))

/-- The run options consulted by `resolveSources`. -/
structure RunOptions where
  targetUrl : Option Str := none
  targetName : Option Str := none
  randomFromGlobal : Bool := false
  fetchRemoteSources : Bool := false
  sourcesPath : Option Str := none

/-- The effectful environment of one `resolveSources` call: the global index
file state, the outcome of `loadConfigFromFile` on the configured path (file
IO, `JSON.parse` and the zod schema validation are external collaborators),
the master endpoint outcome, the `Math.random()` pick and the fresh UUID
supplies. -/
structure ResolverEnv where
  globalIndex : Option SourceIndex := none
  localConfig : Except Str (List MiningSource) := .error []
  master : MasterOutcome := .networkError
  randPick : Nat := 0
  uuid6 : Str := []
  uuid8 : Str := []
  uuidFor : Nat → Str := fun _ => []

/-- Model of `resolveSources` (`index.ts`): explicit target first (registered
into the global index, its entry used alone), then random-from-global
(soft-empty on an empty index), then the forced remote list, then the local
file, falling back to the remote list when the path is absent or the local
load fails. -/
def resolveSources (opts : RunOptions) (env : ResolverEnv) :
    Except Str (List MiningSource) :=
  match opts.targetUrl with
  | some target =>
    (addSourceToIndex env.globalIndex target opts.targetName none none none
      env.uuid6 env.uuid8).map (fun r => [r.1.source])
  | none =>
    if opts.randomFromGlobal then
      match readIndex env.globalIndex with
      | (globalSources, _, _) =>
        if globalSources.isEmpty then .ok []
        else .ok [globalSources.getD (env.randPick % globalSources.length)
          { id := [], name := [], baseUrl := [] }]
    else if opts.fetchRemoteSources then loadSourcesFromMaster env.master env.uuidFor
    else
      match opts.sourcesPath with
      | none => loadSourcesFromMaster env.master env.uuidFor
      | some _ =>
        match env.localConfig with
        | .ok cfg => .ok cfg
        | .error _ => loadSourcesFromMaster env.master env.uuidFor

/-- Specification-side title preference, following the spec words rather than
the code: page title tag if non-empty, otherwise the open-graph title if
non-empty, otherwise the source display name. -/
def specTitlePreference (titleTag ogTitle displayName : Str) : Str :=
  if titleTag ≠ [] then titleTag
  else if ogTitle ≠ [] then ogTitle
  else displayName

/-! ## Theorems -/

/-! Theorems for claim C3 (licensing assessor). -/

theorem lowerStr_append (t p : Str) : lowerStr (t ++ p) = lowerStr t ++ lowerStr p :=
  List.map_append _ _ _

theorem jsIncludes_append_right {t sub : Str} (p : Str) (h : jsIncludes t sub = true) :
    jsIncludes (t ++ p) sub = true := by
  simp only [jsIncludes, decide_eq_true_eq] at h ⊢
  rcases h with ⟨s, u, hsu⟩
  exact ⟨s, u ++ p, by rw [← hsu]; simp [List.append_assoc]⟩

theorem keywords_weight_nonneg : ∀ kw ∈ KEYWORDS, (0 : ℚ) ≤ kw.2 := by decide

theorem sum_filter_weights_nonneg {l : List (Str × ℚ)} (f : Str × ℚ → Bool)
    (hw : ∀ x ∈ l, (0 : ℚ) ≤ x.2) :
    0 ≤ ((l.filter f).map (fun kw => kw.2)).sum := by
  apply List.sum_nonneg
  intro x hx
  rcases List.mem_map.mp hx with ⟨y, hy, rfl⟩
  exact hw y (List.mem_of_mem_filter hy)

theorem sum_filter_weights_mono {l : List (Str × ℚ)} {f g : Str × ℚ → Bool}
    (hfg : ∀ x ∈ l, f x = true → g x = true)
    (hw : ∀ x ∈ l, (0 : ℚ) ≤ x.2) :
    ((l.filter f).map (fun kw => kw.2)).sum ≤ ((l.filter g).map (fun kw => kw.2)).sum := by
  induction l with
  | nil => simp
  | cons a l ih =>
    have ha : (0 : ℚ) ≤ a.2 := hw a (List.mem_cons_self a l)
    have hfg' : ∀ x ∈ l, f x = true → g x = true :=
      fun x hx => hfg x (List.mem_cons_of_mem _ hx)
    have hw' : ∀ x ∈ l, (0 : ℚ) ≤ x.2 := fun x hx => hw x (List.mem_cons_of_mem _ hx)
    by_cases hf : f a = true
    · have hg : g a = true := hfg a (List.mem_cons_self a l) hf
      simp only [List.filter_cons, hf, hg, if_true, List.map_cons, List.sum_cons]
      exact add_le_add_left (ih hfg' hw') _
    · by_cases hg : g a = true
      · simp only [List.filter_cons, hf, hg, if_false, if_true, List.map_cons, List.sum_cons]
        exact le_add_of_nonneg_of_le ha (ih hfg' hw')
      · simp only [List.filter_cons, hf, hg, if_false]
        exact ih hfg' hw'

theorem mkRat_half_eq : (mkRat 1 2 : ℚ) = 1/2 := by
  rw [Rat.mkRat_eq_divInt]; norm_num [Rat.divInt_eq_div]

theorem round2_nonneg {q : ℚ} (h : 0 ≤ q) : 0 ≤ round2 q := by
  unfold round2
  rw [mkRat_half_eq]
  apply div_nonneg _ (by norm_num)
  exact_mod_cast Int.floor_nonneg.mpr (by linarith)

theorem round2_le_one {q : ℚ} (h : q ≤ 1) : round2 q ≤ 1 := by
  unfold round2
  rw [mkRat_half_eq, div_le_one (by norm_num : (0:ℚ) < 100)]
  have h1 : (⌊q * 100 + 1/2⌋ : ℚ) ≤ q * 100 + 1/2 := Int.floor_le _
  have h2 : (⌊q * 100 + 1/2⌋ : ℚ) < 101 := by linarith
  have h3 : ⌊q * 100 + 1/2⌋ < 101 := by exact_mod_cast h2
  have h4 : ⌊q * 100 + 1/2⌋ ≤ 100 := by omega
  exact_mod_cast h4

theorem round2_mono {a b : ℚ} (h : a ≤ b) : round2 a ≤ round2 b := by
  unfold round2
  rw [mkRat_half_eq]
  have : ⌊a * 100 + 1/2⌋ ≤ ⌊b * 100 + 1/2⌋ := Int.floor_le_floor (by linarith)
  have hc : ((⌊a * 100 + 1/2⌋ : ℤ) : ℚ) ≤ ((⌊b * 100 + 1/2⌋ : ℤ) : ℚ) := by exact_mod_cast this
  linarith

/-- C3: for every input text the licensing assessor's confidence lies in
`[0, 1]`, and for every keyword phrase of the weight table, appending the
phrase to the input text never decreases the confidence (the score is a
clamped, rounded sum of non-negative weights plus a bounded extra-evidence
bonus). -/
theorem assessCc0_confidence_bounds_monotone :
    (∀ t extra, 0 ≤ (assessCc0 t extra).confidence ∧ (assessCc0 t extra).confidence ≤ 1) ∧
    (∀ t extra p w, (p, w) ∈ KEYWORDS →
      (assessCc0 t extra).confidence ≤ (assessCc0 (t ++ p) extra).confidence) := by
  have score_nonneg : ∀ t (extra : List Str),
      (0 : ℚ) ≤ ((KEYWORDS.filter (fun kw => jsIncludes (lowerStr t) kw.1)).map
        (fun kw => kw.2)).sum :=
    fun t _ => sum_filter_weights_nonneg _ keywords_weight_nonneg
  constructor
  · intro t extra
    dsimp only [assessCc0]
    constructor
    · apply round2_nonneg
      apply le_min _ zero_le_one
      split
      · have hbonus : (0 : ℚ) ≤ min ((extra.length : ℚ) * mkRat 1 20) (mkRat 1 5) := by
          apply le_min
          · exact mul_nonneg (by positivity) (by decide)
          · decide
        have := score_nonneg t extra
        linarith
      · exact score_nonneg t extra
    · exact round2_le_one (min_le_right _ _)
  · intro t extra p w hmem
    dsimp only [assessCc0]
    apply round2_mono
    apply min_le_min _ le_rfl
    have hbase :
        ((KEYWORDS.filter (fun kw => jsIncludes (lowerStr t) kw.1)).map
          (fun kw => kw.2)).sum ≤
        ((KEYWORDS.filter (fun kw => jsIncludes (lowerStr (t ++ p)) kw.1)).map
          (fun kw => kw.2)).sum := by
      apply sum_filter_weights_mono _ keywords_weight_nonneg
      intro x _ hx
      rw [lowerStr_append]
      exact jsIncludes_append_right _ hx
    split
    · exact add_le_add_right hbase _
    · exact hbase

/-- Witness for C3 at concrete inputs: `"cc0"` is a keyword of the table, and
appending it to a concrete text does not decrease the confidence. -/
theorem assessCc0_confidence_bounds_monotone_witness :
    (("cc0".toList, mkRat 2 5) ∈ KEYWORDS ∧
      (assessCc0 "released to all".toList []).confidence ≤
        (assessCc0 ("released to all".toList ++ "cc0".toList) []).confidence) ∧
    (0 ≤ (assessCc0 "public domain".toList []).confidence ∧
      (assessCc0 "public domain".toList []).confidence ≤ 1) :=
  ⟨⟨by decide,
    assessCc0_confidence_bounds_monotone.2 "released to all".toList [] "cc0".toList
      (mkRat 2 5) (by decide)⟩,
    assessCc0_confidence_bounds_monotone.1 "public domain".toList []⟩

/-! Theorems for claim C4 (relevance-gate JSON extraction). -/

theorem splitFirst_some {c : Char} {s pre rest : Str}
    (h : splitFirst c s = (pre, some rest)) :
    s = pre ++ c :: rest ∧ c ∉ pre := by
  induction s generalizing pre with
  | nil => simp [splitFirst] at h
  | cons x xs ih =>
    by_cases hx : x = c
    · subst hx
      simp only [splitFirst, if_pos rfl, Prod.mk.injEq, Option.some.injEq] at h
      obtain ⟨rfl, rfl⟩ := h
      exact ⟨rfl, List.not_mem_nil _⟩
    · rw [splitFirst, if_neg hx] at h
      rcases hq : splitFirst c xs with ⟨pre1, o1⟩
      rw [hq] at h
      simp only [Prod.mk.injEq] at h
      obtain ⟨h1, h2⟩ := h
      subst h2
      obtain ⟨hs, hmem⟩ := ih hq
      subst h1
      refine ⟨by rw [hs]; rfl, ?_⟩
      intro hc
      rcases List.mem_cons.mp hc with h | h
      · exact hx h.symm
      · exact hmem h

theorem splitFirst_snd_none {c : Char} {s : Str} (h : c ∉ s) :
    (splitFirst c s).2 = none := by
  induction s with
  | nil => rfl
  | cons x xs ih =>
    have hx : ¬ x = c := fun he => h (he ▸ List.mem_cons_self x xs)
    have h2 : c ∉ xs := fun hm => h (List.mem_cons_of_mem _ hm)
    rw [splitFirst, if_neg hx]
    rcases hq : splitFirst c xs with ⟨pre1, o1⟩
    have := ih h2
    rw [hq] at this
    simpa using this

theorem splitLast_some {c : Char} {s a b : Str}
    (h : splitLast c s = some (a, b)) :
    s = a ++ c :: b ∧ c ∉ b := by
  unfold splitLast at h
  rcases hsf : splitFirst c s.reverse with ⟨pre, o⟩
  rw [hsf] at h
  cases o with
  | none => simp at h
  | some revA =>
    simp only [Option.some.injEq, Prod.mk.injEq] at h
    obtain ⟨ha, hb⟩ := h
    obtain ⟨hs, hmem⟩ := splitFirst_some hsf
    constructor
    · have hrr : s = (pre ++ c :: revA).reverse := by
        rw [← hs, List.reverse_reverse]
      rw [hrr, List.reverse_append, List.reverse_cons, ← ha, ← hb]
      simp [List.append_assoc]
    · rw [← hb]
      simpa using hmem

theorem splitLast_none {c : Char} {s : Str} (h : c ∉ s) :
    splitLast c s = none := by
  unfold splitLast
  rcases hsf : splitFirst c s.reverse with ⟨pre, o⟩
  have : (splitFirst c s.reverse).2 = none :=
    splitFirst_snd_none (by simpa using h)
  rw [hsf] at this
  simp only at this
  subst this
  rfl

theorem extractJsonBlock_none_of_missing {t : Str}
    (h : '{' ∉ t ∨ '}' ∉ t) : extractJsonBlock t = none := by
  unfold extractJsonBlock
  split
  · rfl
  · rename_i pre rest heq
    obtain ⟨hs, _⟩ := splitFirst_some heq
    rcases h with h | h
    · exact absurd (hs ▸ List.mem_append_right pre (List.mem_cons_self _ _)) h
    · have hrest : '}' ∉ rest := fun hm =>
        h (hs ▸ List.mem_append_right pre (List.mem_cons_of_mem _ hm))
      rw [splitLast_none hrest]

theorem scanBlock_none_decompose :
    ∀ (rest acc : Str), scanBlock rest 1 acc = none → '}' ∈ rest →
      ∃ pre mid post, rest = pre ++ '{' :: (mid ++ '}' :: post) := by
  intro rest
  induction rest with
  | nil =>
    intro acc _ hmem
    simp at hmem
  | cons c r ih =>
    intro acc hscan hmem
    by_cases hc : c = '}'
    · subst hc
      simp [scanBlock] at hscan
    · by_cases ho : c = '{'
      · subst ho
        have hr : '}' ∈ r := by
          rcases List.mem_cons.mp hmem with h | h
          · exact absurd h (by decide)
          · exact h
        obtain ⟨s, t, hst⟩ := List.append_of_mem hr
        exact ⟨[], s, t, by rw [hst]; rfl⟩
      · have hscan2 : scanBlock r 1 (c :: acc) = none := by
          simpa [scanBlock, hc, ho] using hscan
        have hr : '}' ∈ r := by
          rcases List.mem_cons.mp hmem with h | h
          · exact absurd h.symm hc
          · exact h
        obtain ⟨pre, mid, post, hd⟩ := ih (c :: acc) hscan2 hr
        exact ⟨c :: pre, mid, post, by rw [hd]; rfl⟩

theorem firstBalancedBlock_isSome_of_decompose :
    ∀ t : Str, (∃ pre mid post, t = pre ++ '{' :: (mid ++ '}' :: post)) →
      (firstBalancedBlock t).isSome := by
  intro t
  induction t with
  | nil =>
    rintro ⟨pre, mid, post, h⟩
    exact absurd h (by simp)
  | cons c rest ih =>
    rintro ⟨pre, mid, post, h⟩
    cases pre with
    | nil =>
      simp only [List.nil_append] at h
      injection h with h1 h2
      subst h1
      rcases hs : scanBlock rest 1 ['{'] with _ | b
      · have hmem : '}' ∈ rest := by
          rw [h2]
          exact List.mem_append_right _ (List.mem_cons_self _ _)
        obtain ⟨p, m, q, hd⟩ := scanBlock_none_decompose rest ['{'] hs hmem
        have hsub := ih ⟨p, m, q, hd⟩
        simpa [firstBalancedBlock, hs] using hsub
      · simp [firstBalancedBlock, hs]
    | cons p pre1 =>
      injection h with h1 h2
      subst h1
      have hsub := ih ⟨pre1, mid, post, h2⟩
      by_cases hc : c = '{'
      · subst hc
        rcases hs : scanBlock rest 1 ['{'] with _ | b
        · simpa [firstBalancedBlock, hs] using hsub
        · simp [firstBalancedBlock, hs]
      · simpa [firstBalancedBlock, hc] using hsub

/-- C4 counterexample: on a response containing two balanced objects,
`extractJsonBlock` returns the whole span from the first opening brace to the
last closing brace rather than the first balanced substring. -/
theorem extractJsonBlock_not_first_balanced :
    extractJsonBlock "Sure! \x7b\x7d and \x7b\x7d".toList
        = some "\x7b\x7d and \x7b\x7d".toList ∧
    firstBalancedBlock "Sure! \x7b\x7d and \x7b\x7d".toList
        = some "\x7b\x7d".toList ∧
    extractJsonBlock "Sure! \x7b\x7d and \x7b\x7d".toList ≠
      firstBalancedBlock "Sure! \x7b\x7d and \x7b\x7d".toList :=
  ⟨by decide, by decide, by decide⟩

/-- C4 (amended): `extractJsonBlock` returns the span from the first opening
brace to the last closing brace (tolerating surrounding prose), and returns
`none` when either brace is missing — in particular whenever no balanced
block exists, since a result implies a balanced block exists; on the spec's
example response it extracts exactly the embedded object, which parses to the
expected JSON value. -/
theorem extractJsonBlock_spec :
    (∀ t s, extractJsonBlock t = some s →
      ∃ pre a b, t = pre ++ s ++ b ∧ s = '{' :: (a ++ ['}']) ∧
        '{' ∉ pre ∧ '}' ∉ b) ∧
    (∀ t s, extractJsonBlock t = some s → (firstBalancedBlock t).isSome) ∧
    (extractJsonBlock
        ("Sure! \x7b\"verdict\":\"reject\",\"confidence\":0.9,\"tags\":[],\"reason\":\"unrelated\"\x7d thanks").toList
      = some
        ("\x7b\"verdict\":\"reject\",\"confidence\":0.9,\"tags\":[],\"reason\":\"unrelated\"\x7d").toList ∧
      parseJson
        ("\x7b\"verdict\":\"reject\",\"confidence\":0.9,\"tags\":[],\"reason\":\"unrelated\"\x7d").toList
      = some (Json.obj
          [("verdict".toList, Json.str "reject".toList),
           ("confidence".toList, Json.num (mkRat 9 10)),
           ("tags".toList, Json.arr []),
           ("reason".toList, Json.str "unrelated".toList)])) := by
  have hchar : ∀ t s, extractJsonBlock t = some s →
      ∃ pre a b, t = pre ++ s ++ b ∧ s = '{' :: (a ++ ['}']) ∧
        '{' ∉ pre ∧ '}' ∉ b := by
    intro t s h
    unfold extractJsonBlock at h
    split at h
    · exact absurd h (by simp)
    · rename_i pre rest hsf
      split at h
      · exact absurd h (by simp)
      · rename_i a b hsl
        simp only [Option.some.injEq] at h
        obtain ⟨ht, hnopen⟩ := splitFirst_some hsf
        obtain ⟨hr, hnclose⟩ := splitLast_some hsl
        refine ⟨pre, a, b, ?_, h.symm, hnopen, hnclose⟩
        rw [ht, hr, ← h]
        simp [List.append_assoc]
  refine ⟨hchar, ?_, by decide, by rfl⟩
  intro t s h
  obtain ⟨pre, a, b, ht, hs, _, _⟩ := hchar t s h
  apply firstBalancedBlock_isSome_of_decompose
  exact ⟨pre, a, b, by rw [ht, hs]; simp [List.append_assoc]⟩

/-- Witness for C4's conditional parts at a concrete input. -/
theorem extractJsonBlock_spec_witness :
    (∃ pre a b,
        "x\x7by\x7dz".toList = pre ++ "\x7by\x7d".toList ++ b ∧
        "\x7by\x7d".toList = '{' :: (a ++ ['}']) ∧
        '{' ∉ pre ∧ '}' ∉ b) ∧
    (firstBalancedBlock "x\x7by\x7dz".toList).isSome :=
  ⟨extractJsonBlock_spec.1 "x\x7by\x7dz".toList "\x7by\x7d".toList (by decide),
   extractJsonBlock_spec.2.1 "x\x7by\x7dz".toList "\x7by\x7d".toList (by decide)⟩

/-! Theorems for claim C5 (fail-open classifier integration). -/

theorem mem_of_mem_jsTrim {x : Char} {s : Str} (h : x ∈ jsTrim s) : x ∈ s := by
  unfold jsTrim at h
  rw [List.mem_reverse] at h
  have h1 := (List.dropWhile_sublist (l := (s.dropWhile isJsWs).reverse) isJsWs).mem h
  rw [List.mem_reverse] at h1
  exact (List.dropWhile_sublist (l := s) isJsWs).mem h1

/-- C5: the relevance gate returns no assessment (`null`) on a network error,
on a non-2xx response, and on a response whose raw text contains no brace
pair — all throwing paths being caught inside the function, it never raises —
and in each of the three cases the driver's per-artifact step still proceeds
to evaluate submission of the artifact. -/
theorem classifyArtifactWithLlama_fail_open :
    (classifyArtifactWithLlama .networkError = none ∧
      artifactStep true true (classifyArtifactWithLlama .networkError)
        = .proceedToSubmit) ∧
    (∀ body, classifyArtifactWithLlama (.httpResponse false body) = none ∧
      artifactStep true true (classifyArtifactWithLlama (.httpResponse false body))
        = .proceedToSubmit) ∧
    (∀ body data raw, parseJson body = some data → getRawText data = some raw →
      ('{' ∉ raw ∨ '}' ∉ raw) →
      classifyArtifactWithLlama (.httpResponse true body) = none ∧
      artifactStep true true (classifyArtifactWithLlama (.httpResponse true body))
        = .proceedToSubmit) := by
  refine ⟨⟨rfl, rfl⟩, fun body => ⟨rfl, rfl⟩, ?_⟩
  intro body data raw hbody hraw hnb
  have hext : extractJsonBlock (jsTrim raw) = none :=
    extractJsonBlock_none_of_missing
      (hnb.imp (fun h hm => h (mem_of_mem_jsTrim hm))
               (fun h hm => h (mem_of_mem_jsTrim hm)))
  have hnone : classifyArtifactWithLlama (.httpResponse true body) = none := by
    simp only [classifyArtifactWithLlama, Bool.not_true, hbody, hraw, hext]
    rfl
  exact ⟨hnone, by rw [hnone]; rfl⟩

/-- Witness for C5's conditional case: a 200 response whose raw text has no
braces yields no assessment, and the driver still proceeds to submission. -/
theorem classifyArtifactWithLlama_fail_open_witness :
    classifyArtifactWithLlama
        (.httpResponse true "\x7b\"response\":\"hello\"\x7d".toList) = none ∧
    artifactStep true true
        (classifyArtifactWithLlama
          (.httpResponse true "\x7b\"response\":\"hello\"\x7d".toList))
        = .proceedToSubmit :=
  classifyArtifactWithLlama_fail_open.2.2
    "\x7b\"response\":\"hello\"\x7d".toList
    (Json.obj [("response".toList, Json.str "hello".toList)])
    "hello".toList (by rfl) (by rfl) (Or.inl (by decide))

/-! Theorems for claim C2 (traversal cap and fetch counts). -/

theorem ite_nil_ne_nil {α : Type} [DecidableEq α] (urls : List α) (fb : α) :
    (if urls = [] then [fb] else urls) ≠ [] := by
  split
  · simp
  · assumption

theorem buildListingUrls_ne_nil (traversal : CollectionTraversal)
    (fallbackBase : Str) : buildListingUrls traversal fallbackBase ≠ [] := by
  unfold buildListingUrls
  exact ite_nil_ne_nil _ _

theorem collectAnchors_length_le (u : Str) (m : Nat) :
    ∀ (anchors : List (Option Str)) (acc : List DetailLink), acc.length ≤ m →
      (collectAnchors u m anchors acc).length ≤ m := by
  intro anchors
  induction anchors with
  | nil => intro acc h; simpa [collectAnchors] using h
  | cons a rest ih =>
    intro acc h
    simp only [collectAnchors]
    split
    · exact h
    · rename_i hcap
      split
      · exact ih acc h
      · split
        · exact ih acc h
        · apply ih
          rw [List.length_append]
          simp only [List.length_cons, List.length_nil]
          omega

theorem collectListings_fst_length_le (web : Str → Option PageModel) (m : Nat) :
    ∀ (urls : List Str) (acc : List DetailLink), acc.length ≤ m →
      ((collectListings web m urls acc).1).length ≤ m := by
  intro urls
  induction urls with
  | nil => intro acc h; simpa [collectListings] using h
  | cons u rest ih =>
    intro acc h
    simp only [collectListings]
    split
    · exact ih acc h
    · rename_i page heq
      split
      · exact collectAnchors_length_le u m page.anchors acc h
      · exact ih _ (collectAnchors_length_le u m page.anchors acc h)

theorem collectListings_trace_prefix (web : Str → Option PageModel) (m : Nat) :
    ∀ (urls : List Str) (acc : List DetailLink), ∃ rest,
      urls = (collectListings web m urls acc).2 ++ rest ∧
      (rest ≠ [] → m ≤ ((collectListings web m urls acc).1).length) := by
  intro urls
  induction urls with
  | nil =>
    intro acc
    exact ⟨[], by simp [collectListings], fun h => absurd rfl h⟩
  | cons u rest ih =>
    intro acc
    simp only [collectListings]
    split
    · obtain ⟨r, hr, hcond⟩ := ih acc
      exact ⟨r, congrArg (List.cons u) hr, hcond⟩
    · rename_i page heq
      split
      · rename_i hcap
        exact ⟨rest, rfl, fun _ => hcap⟩
      · obtain ⟨r, hr, hcond⟩ := ih (collectAnchors u m page.anchors acc)
        exact ⟨r, congrArg (List.cons u) hr, hcond⟩

theorem fetchDetails_trace (web : Str → Option PageModel) (source : MiningSource)
    (now : Str) :
    ∀ ls : List DetailLink,
      (fetchDetails web source now ls).2 = ls.map (fun l => l.url) := by
  intro ls
  induction ls with
  | nil => rfl
  | cons l ls ih =>
    simp only [fetchDetails]
    cases hw : web l.url with
    | none => simpa using ih
    | some page => simpa using ih

/-- C2: the collected candidate list never exceeds the cap
`maxItems` (default 8); the detail phase issues exactly one fetch per
collected candidate, in order; once the cap is reached no further listing URL
is fetched — stated positively: whenever the candidate count reaches the cap
while processing a listing page, the listing loop stops there, the listing
just processed is the last one fetched and all remaining listing URLs are
left unfetched, whatever they are; in addition the listing fetch trace is a
prefix of the listing URL list that is proper only when the cap was reached.
Concretely: with `maxItems = 2` and a listing page containing five matching
anchors, exactly two candidate links are collected and exactly two detail
fetches are issued; and with a second listing URL (which would yield further
anchors) behind that page, the second listing URL is never fetched. -/
theorem scrapeCollectionSource_cap_fetches :
    (∀ source traversal web now,
      (scrapeCollectionSource source traversal web now).candidates.length ≤
        traversal.maxItems.getD 8) ∧
    (∀ source traversal web now,
      (scrapeCollectionSource source traversal web now).detailTrace =
        (scrapeCollectionSource source traversal web now).candidates.map
          (fun l => l.url)) ∧
    (∀ source traversal web now, ∃ rest,
      buildListingUrls traversal source.baseUrl =
        (scrapeCollectionSource source traversal web now).listingTrace ++ rest ∧
      (rest ≠ [] →
        traversal.maxItems.getD 8 ≤
          (scrapeCollectionSource source traversal web now).candidates.length)) ∧
    (∀ (web : Str → Option PageModel) (m : Nat) (u : Str) (rest : List Str)
        (acc : List DetailLink) (page : PageModel),
      web u = some page →
      m ≤ (collectAnchors u m page.anchors acc).length →
      collectListings web m (u :: rest) acc
        = (collectAnchors u m page.anchors acc, [u])) ∧
    ((scrapeCollectionSource
        { id := "s".toList, name := "S".toList, baseUrl := "https://l.ex".toList }
        { listingUrls := some ["https://l.ex/p1".toList, "https://l.ex/p2".toList],
          resultItemSelector := "a".toList, maxItems := some 2 }
        (fun u =>
          if u == "https://l.ex/p1".toList then
            some { anchors := [some "a1".toList, some "a2".toList, some "a3".toList,
                               some "a4".toList, some "a5".toList] }
          else if u == "https://l.ex/p2".toList then
            some { anchors := [some "b1".toList, some "b2".toList] }
          else some {})
        []).listingTrace = ["https://l.ex/p1".toList] ∧
      (scrapeCollectionSource
        { id := "s".toList, name := "S".toList, baseUrl := "https://l.ex".toList }
        { listingUrls := some ["https://l.ex/p1".toList, "https://l.ex/p2".toList],
          resultItemSelector := "a".toList, maxItems := some 2 }
        (fun u =>
          if u == "https://l.ex/p1".toList then
            some { anchors := [some "a1".toList, some "a2".toList, some "a3".toList,
                               some "a4".toList, some "a5".toList] }
          else if u == "https://l.ex/p2".toList then
            some { anchors := [some "b1".toList, some "b2".toList] }
          else some {})
        []).candidates.map (fun l => l.url)
        = ["https://l.ex/a1".toList, "https://l.ex/a2".toList]) ∧
    ((scrapeCollectionSource
        { id := "s".toList, name := "S".toList, baseUrl := "https://l.ex".toList }
        { listingUrls := some ["https://l.ex".toList],
          resultItemSelector := "a".toList, maxItems := some 2 }
        (fun u =>
          if u == "https://l.ex".toList then
            some { anchors := [some "a1".toList, some "a2".toList, some "a3".toList,
                               some "a4".toList, some "a5".toList] }
          else some {})
        []).candidates.map (fun l => l.url) =
          ["https://l.ex/a1".toList, "https://l.ex/a2".toList] ∧
      (scrapeCollectionSource
        { id := "s".toList, name := "S".toList, baseUrl := "https://l.ex".toList }
        { listingUrls := some ["https://l.ex".toList],
          resultItemSelector := "a".toList, maxItems := some 2 }
        (fun u =>
          if u == "https://l.ex".toList then
            some { anchors := [some "a1".toList, some "a2".toList, some "a3".toList,
                               some "a4".toList, some "a5".toList] }
          else some {})
        []).detailTrace =
          ["https://l.ex/a1".toList, "https://l.ex/a2".toList]) := by
  refine ⟨?_, ?_, ?_, ?_, ⟨by decide, by decide⟩, by decide, by decide⟩
  · intro source traversal web now
    simp only [scrapeCollectionSource]
    split
    · simp
    · have h := collectListings_fst_length_le web (traversal.maxItems.getD 8)
        (buildListingUrls traversal source.baseUrl) [] (by simp)
      split
      · simpa using h
      · simpa using h
  · intro source traversal web now
    simp only [scrapeCollectionSource]
    split
    · simp
    · split
      · rename_i hnil
        simp [hnil]
      · exact fetchDetails_trace web source now _
  · intro source traversal web now
    simp only [scrapeCollectionSource]
    split
    · rename_i hnil
      exact absurd hnil (buildListingUrls_ne_nil traversal source.baseUrl)
    · obtain ⟨r, hr, hcond⟩ := collectListings_trace_prefix web
        (traversal.maxItems.getD 8) (buildListingUrls traversal source.baseUrl) []
      split
      · exact ⟨r, hr, hcond⟩
      · exact ⟨r, hr, hcond⟩
  · intro web m u rest acc page hw hcap
    simp only [collectListings, hw]
    rw [if_pos hcap]

/-- Witness for C2's break-step conjunct at a concrete input: the cap of 2 is
reached on the first listing page, so the loop result carries that page as
the only fetched listing and the second listing URL is left unfetched. -/
theorem scrapeCollectionSource_cap_fetches_witness :
    collectListings
        (fun u : Str =>
          if u == "https://l.ex/p1".toList then
            some ({ anchors := [some "a1".toList, some "a2".toList,
                                some "a3".toList] } : PageModel)
          else some ({ anchors := [some "b1".toList] } : PageModel))
        2 ["https://l.ex/p1".toList, "https://l.ex/p2".toList] []
      = (collectAnchors "https://l.ex/p1".toList 2
          [some "a1".toList, some "a2".toList, some "a3".toList] [],
         ["https://l.ex/p1".toList]) :=
  scrapeCollectionSource_cap_fetches.2.2.2.1
    (fun u : Str =>
      if u == "https://l.ex/p1".toList then
        some ({ anchors := [some "a1".toList, some "a2".toList,
                            some "a3".toList] } : PageModel)
      else some ({ anchors := [some "b1".toList] } : PageModel))
    2 "https://l.ex/p1".toList ["https://l.ex/p2".toList] []
    { anchors := [some "a1".toList, some "a2".toList, some "a3".toList] }
    (by rfl) (by decide)

/-! Theorems for claims C6 and C8 (link discovery). -/

theorem parseHtml_url (source : MiningSource) (targetUrl : Str) (page : PageModel)
    (listingUrl : Option Str) (now : Str) :
    (parseHtml source targetUrl page listingUrl now).url = targetUrl := rfl

theorem collectAnchors_mem (u : Str) (m : Nat) :
    ∀ (anchors : List (Option Str)) (acc : List DetailLink) (l : DetailLink),
      l ∈ collectAnchors u m anchors acc →
      l ∈ acc ∨ ∃ raw, some raw ∈ anchors ∧ l = ⟨resolveUrl u raw, u⟩ := by
  intro anchors
  induction anchors with
  | nil =>
    intro acc l h
    simp only [collectAnchors] at h
    exact Or.inl h
  | cons a rest ih =>
    intro acc l h
    simp only [collectAnchors] at h
    split at h
    · exact Or.inl h
    · rename_i hcap
      split at h
      · rcases ih acc l h with h1 | ⟨raw, hraw, hl⟩
        · exact Or.inl h1
        · exact Or.inr ⟨raw, List.mem_cons_of_mem _ hraw, hl⟩
      · rename_i raw
        split at h
        · rcases ih acc l h with h1 | ⟨raw1, hraw1, hl1⟩
          · exact Or.inl h1
          · exact Or.inr ⟨raw1, List.mem_cons_of_mem _ hraw1, hl1⟩
        · rcases ih _ l h with h1 | ⟨raw1, hraw1, hl1⟩
          · rcases List.mem_append.mp h1 with h2 | h2
            · exact Or.inl h2
            · rcases List.mem_singleton.mp h2 with rfl
              exact Or.inr ⟨raw, List.mem_cons_self _ _, rfl⟩
          · exact Or.inr ⟨raw1, List.mem_cons_of_mem _ hraw1, hl1⟩

theorem collectAnchors_pairwise (u : Str) (m : Nat) :
    ∀ (anchors : List (Option Str)) (acc : List DetailLink),
      acc.Pairwise (fun a b => a.url ≠ b.url) →
      (collectAnchors u m anchors acc).Pairwise (fun a b => a.url ≠ b.url) := by
  intro anchors
  induction anchors with
  | nil =>
    intro acc h
    simp only [collectAnchors]
    exact h
  | cons a rest ih =>
    intro acc h
    simp only [collectAnchors]
    split
    · exact h
    · rename_i hcap
      split
      · exact ih acc h
      · rename_i raw
        split
        · exact ih acc h
        · rename_i hdup
          apply ih
          rw [List.pairwise_append]
          refine ⟨h, List.pairwise_singleton _ _, ?_⟩
          intro y hy z hz
          rcases List.mem_singleton.mp hz with rfl
          simp only [List.any_eq_true, beq_iff_eq, not_exists, not_and] at hdup
          exact fun hurl => hdup y hy hurl

theorem collectListings_mem (web : Str → Option PageModel) (m : Nat) :
    ∀ (urls : List Str) (acc : List DetailLink) (l : DetailLink),
      l ∈ (collectListings web m urls acc).1 →
      l ∈ acc ∨ ∃ v page raw, v ∈ urls ∧ web v = some page ∧
        some raw ∈ page.anchors ∧ l = ⟨resolveUrl v raw, v⟩ := by
  intro urls
  induction urls with
  | nil =>
    intro acc l h
    simp only [collectListings] at h
    exact Or.inl h
  | cons u rest ih =>
    intro acc l h
    simp only [collectListings] at h
    split at h
    · rcases ih acc l h with h1 | ⟨v, page, raw, hv, hw, hraw, hl⟩
      · exact Or.inl h1
      · exact Or.inr ⟨v, page, raw, List.mem_cons_of_mem _ hv, hw, hraw, hl⟩
    · rename_i page heq
      have fromAcc1 : ∀ x, x ∈ collectAnchors u m page.anchors acc →
          x ∈ acc ∨ ∃ v p raw, v ∈ u :: rest ∧ web v = some p ∧
            some raw ∈ p.anchors ∧ x = ⟨resolveUrl v raw, v⟩ := by
        intro x hx
        rcases collectAnchors_mem u m page.anchors acc x hx with h1 | ⟨raw, hraw, hl⟩
        · exact Or.inl h1
        · exact Or.inr ⟨u, page, raw, List.mem_cons_self _ _, heq, hraw, hl⟩
      split at h
      · exact fromAcc1 l h
      · rcases ih _ l h with h1 | ⟨v, p, raw, hv, hw, hraw, hl⟩
        · exact fromAcc1 l h1
        · exact Or.inr ⟨v, p, raw, List.mem_cons_of_mem _ hv, hw, hraw, hl⟩

theorem collectListings_single_trace (web : Str → Option PageModel) (m : Nat)
    (u : Str) (acc : List DetailLink) :
    (collectListings web m [u] acc).2 = [u] := by
  simp only [collectListings]
  split
  · rfl
  · split
    · rfl
    · rfl

theorem fetchDetails_artifact_url (web : Str → Option PageModel)
    (source : MiningSource) (now : Str) :
    ∀ (ls : List DetailLink) (a : ScrapedArtifact),
      a ∈ (fetchDetails web source now ls).1 → ∃ l, l ∈ ls ∧ a.url = l.url := by
  intro ls
  induction ls with
  | nil =>
    intro a h
    simp only [fetchDetails] at h
    exact absurd h (List.not_mem_nil a)
  | cons l ls ih =>
    intro a h
    simp only [fetchDetails] at h
    split at h
    · rename_i arts trace hweb hfd
      have hmem : a ∈ (fetchDetails web source now ls).1 := by
        rw [hfd]; exact h
      rcases ih a hmem with ⟨l1, hl1, hurl⟩
      exact ⟨l1, List.mem_cons_of_mem _ hl1, hurl⟩
    · rename_i page arts trace hweb hfd
      rcases List.mem_cons.mp h with rfl | h1
      · exact ⟨l, List.mem_cons_self _ _, rfl⟩
      · have hmem : a ∈ (fetchDetails web source now ls).1 := by
          rw [hfd]; exact h1
        rcases ih a hmem with ⟨l1, hl1, hurl⟩
        exact ⟨l1, List.mem_cons_of_mem _ hl1, hurl⟩

/-- C6 counterexample: for a source whose collection spec has neither listing
URLs nor a search template, traversal uses the base URL as a listing page —
it discovers a link on it and produces an artifact for the linked detail URL,
not an artifact for the base page itself, and issues a detail fetch for the
discovered link. -/
theorem scrapeCollection_base_is_listing_counterexample :
    ((scrapeCollectionSource
        { id := "b".toList, name := "B".toList, baseUrl := "https://base.ex".toList }
        { resultItemSelector := "a".toList }
        (fun u =>
          if u == "https://base.ex".toList then
            some { anchors := [some "item.html".toList], titleTag := "T".toList }
          else some { titleTag := "D".toList })
        []).artifacts.map (fun a => a.url) = ["https://base.ex/item.html".toList] ∧
      (scrapeCollectionSource
        { id := "b".toList, name := "B".toList, baseUrl := "https://base.ex".toList }
        { resultItemSelector := "a".toList }
        (fun u =>
          if u == "https://base.ex".toList then
            some { anchors := [some "item.html".toList], titleTag := "T".toList }
          else some { titleTag := "D".toList })
        []).detailTrace = ["https://base.ex/item.html".toList]) ∧
    "https://base.ex/item.html".toList ≠ "https://base.ex".toList :=
  ⟨⟨by decide, by decide⟩, by decide⟩

/-- C6 (amended): when the collection spec has neither listing URLs nor a
usable search template with terms, the traversal uses the source base URL as
the only listing page: the listing URL set is exactly the base URL, the base
URL is the only listing fetched, and every produced artifact comes from a
link discovered on the base page, resolved against it — not from the base
page itself. -/
theorem scrapeCollectionSource_empty_spec_base_listing :
    ∀ source traversal web now,
      traversal.listingUrls.getD [] = [] →
      (∀ tpl terms, traversal.searchUrlTemplate = some tpl →
        traversal.searchTerms = some terms → tpl = [] ∨ terms = []) →
      buildListingUrls traversal source.baseUrl = [source.baseUrl] ∧
      (scrapeCollectionSource source traversal web now).listingTrace
        = [source.baseUrl] ∧
      (∀ a ∈ (scrapeCollectionSource source traversal web now).artifacts,
        ∃ page raw, web source.baseUrl = some page ∧ some raw ∈ page.anchors ∧
          a.url = resolveUrl source.baseUrl raw) := by
  intro source traversal web now hlist hsearch
  have hfrom : buildListingUrls traversal source.baseUrl = [source.baseUrl] := by
    unfold buildListingUrls
    have h1 : (match traversal.listingUrls with
        | some urls => urls
        | none => []) = ([] : List Str) := by
      cases hu : traversal.listingUrls with
      | none => rfl
      | some urls => rw [hu] at hlist; simpa using hlist
    have h2 : (match traversal.searchUrlTemplate, traversal.searchTerms with
        | some tpl, some terms =>
          if tpl ≠ [] ∧ terms.length ≠ 0 then
            terms.map (fun term =>
              replaceFirst tpl "\x7bquery\x7d".toList
                (encodeURIComponent (jsTrim term)))
          else []
        | _, _ => []) = ([] : List Str) := by
      cases ht : traversal.searchUrlTemplate with
      | none => rfl
      | some tpl =>
        cases hs : traversal.searchTerms with
        | none => rfl
        | some terms =>
          rcases hsearch tpl terms ht hs with h | h
          · simp [h]
          · simp [h]
    rw [h1, h2]
    rfl
  refine ⟨hfrom, ?_, ?_⟩
  · simp only [scrapeCollectionSource, hfrom]
    split
    · simp_all
    · split
      · exact collectListings_single_trace web _ source.baseUrl []
      · exact collectListings_single_trace web _ source.baseUrl []
  · intro a ha
    simp only [scrapeCollectionSource, hfrom] at ha
    split at ha
    · simp_all
    · split at ha
      · exact absurd ha (List.not_mem_nil a)
      · obtain ⟨l, hl, hurl⟩ := fetchDetails_artifact_url web source now _ a ha
        rcases collectListings_mem web _ [source.baseUrl] [] l hl with h1 | h1
        · exact absurd h1 (List.not_mem_nil l)
        · obtain ⟨v, page, raw, hv, hw, hraw, hlval⟩ := h1
          rcases List.mem_singleton.mp hv with rfl
          exact ⟨page, raw, hw, hraw, by rw [hurl, hlval]⟩

/-- Witness for C6's amended theorem at a concrete empty collection spec. -/
theorem scrapeCollectionSource_empty_spec_base_listing_witness :
    buildListingUrls { resultItemSelector := "a".toList } "https://base.ex".toList
      = ["https://base.ex".toList] ∧
    (scrapeCollectionSource
        { id := "b".toList, name := "B".toList, baseUrl := "https://base.ex".toList }
        { resultItemSelector := "a".toList }
        (fun _ : Str => some ({ anchors := [some "item.html".toList] } : PageModel))
        []).listingTrace = ["https://base.ex".toList] ∧
    (∀ a ∈ (scrapeCollectionSource
        { id := "b".toList, name := "B".toList, baseUrl := "https://base.ex".toList }
        { resultItemSelector := "a".toList }
        (fun _ : Str => some ({ anchors := [some "item.html".toList] } : PageModel))
        []).artifacts,
      ∃ page raw,
        (fun _ : Str => some ({ anchors := [some "item.html".toList] } : PageModel))
            "https://base.ex".toList = some page ∧
        some raw ∈ page.anchors ∧
        a.url = resolveUrl "https://base.ex".toList raw) :=
  scrapeCollectionSource_empty_spec_base_listing
    { id := "b".toList, name := "B".toList, baseUrl := "https://base.ex".toList }
    { resultItemSelector := "a".toList }
    (fun _ : Str => some ({ anchors := [some "item.html".toList] } : PageModel))
    [] (by decide) (fun tpl terms h => nomatch h)

/-- C8 counterexample: a candidate whose resolution fails (`new URL` throws)
is not skipped — it is collected with its raw value. -/
theorem collectAnchors_unresolved_collected :
    resolveUrlOpt "https://e.ex/list".toList "http://[".toList = none ∧
    collectAnchors "https://e.ex/list".toList 8 [some "http://[".toList] []
      = [⟨"http://[".toList, "https://e.ex/list".toList⟩] :=
  ⟨by decide, by decide⟩

/-- C8 (amended): every collected candidate comes from an anchor value of the
listing page, carrying `resolveUrl` of that value against the listing URL
(the raw value itself when resolution fails, rather than being skipped), and
candidates whose resolved URL is string-equal to an already collected one are
skipped, so the collected URLs are pairwise distinct. -/
theorem collectAnchors_resolve_and_dedup :
    (∀ u m anchors l, l ∈ collectAnchors u m anchors [] →
      ∃ raw, some raw ∈ anchors ∧ l = ⟨resolveUrl u raw, u⟩) ∧
    (∀ u m anchors,
      (collectAnchors u m anchors []).Pairwise (fun a b => a.url ≠ b.url)) ∧
    (∀ base rel, resolveUrlOpt base rel = none → resolveUrl base rel = rel) := by
  refine ⟨?_, ?_, ?_⟩
  · intro u m anchors l h
    rcases collectAnchors_mem u m anchors [] l h with h1 | h1
    · exact absurd h1 (List.not_mem_nil l)
    · exact h1
  · intro u m anchors
    exact collectAnchors_pairwise u m anchors [] List.Pairwise.nil
  · intro base rel h
    unfold resolveUrl
    rw [h]

/-- Witness for C8's conditional parts at concrete inputs. -/
theorem collectAnchors_resolve_and_dedup_witness :
    (∃ raw, some raw ∈ [some "p.html".toList] ∧
      (⟨"https://e.ex/p.html".toList, "https://e.ex/list".toList⟩ : DetailLink)
        = ⟨resolveUrl "https://e.ex/list".toList raw, "https://e.ex/list".toList⟩) ∧
    resolveUrl "https://e.ex/list".toList "http://[".toList = "http://[".toList :=
  ⟨collectAnchors_resolve_and_dedup.1 "https://e.ex/list".toList 8
      [some "p.html".toList]
      ⟨"https://e.ex/p.html".toList, "https://e.ex/list".toList⟩ (by decide),
   collectAnchors_resolve_and_dedup.2.2 "https://e.ex/list".toList
      "http://[".toList (by decide)⟩

/-! Theorems for claim C7 (title preference order). -/

/-- C7 counterexample: with an empty title tag, a non-empty open-graph title
and a non-empty source display name, the code titles the artifact with the
source display name, whereas the spec's preference order demands the
open-graph title. -/
theorem parseHtml_title_counterexample :
    (parseHtml
        { id := "i".toList, name := "SRC".toList, baseUrl := "https://s.ex".toList }
        "https://s.ex/p".toList { ogTitle := "OG".toList } none []).title
      = "SRC".toList ∧
    specTitlePreference [] "OG".toList "SRC".toList = "OG".toList ∧
    (parseHtml
        { id := "i".toList, name := "SRC".toList, baseUrl := "https://s.ex".toList }
        "https://s.ex/p".toList { ogTitle := "OG".toList } none []).title
      ≠ specTitlePreference [] "OG".toList "SRC".toList :=
  ⟨by decide, by decide, by decide⟩

/-- C7 (amended): the artifact title is the trimmed page title tag when that
trims non-empty; when the title tag is empty it is the trimmed source display
name when that is non-empty; the open-graph title is used only when the
title-tag-or-name trim comes out empty; and the raw source display name is
the final fallback. -/
theorem parseHtml_title_preference :
    (∀ source url page listing now, jsTrim page.titleTag ≠ [] →
      (parseHtml source url page listing now).title = jsTrim page.titleTag) ∧
    (∀ source url page listing now,
      page.titleTag = [] → jsTrim source.name ≠ [] →
      (parseHtml source url page listing now).title = jsTrim source.name) ∧
    (∀ source url page listing now,
      jsTrim (if page.titleTag = [] then source.name else page.titleTag) = [] →
      page.ogTitle ≠ [] →
      (parseHtml source url page listing now).title = page.ogTitle) ∧
    (∀ source url page listing now,
      jsTrim (if page.titleTag = [] then source.name else page.titleTag) = [] →
      page.ogTitle = [] →
      (parseHtml source url page listing now).title = source.name) := by
  refine ⟨?_, ?_, ?_, ?_⟩
  · intro source url page listing now h
    have htag : page.titleTag ≠ [] := by
      intro he
      rw [he] at h
      exact h rfl
    simp only [parseHtml, if_neg htag]
    rw [if_pos h]
  · intro source url page listing now htag h
    simp only [parseHtml, if_pos htag]
    rw [if_pos h]
  · intro source url page listing now h hog
    simp only [parseHtml, h]
    rw [if_neg (by simp), if_pos hog]
  · intro source url page listing now h hog
    simp only [parseHtml, h]
    rw [if_neg (by simp), if_neg (by simp [hog])]

/-- Witness for C7's amended preference order at concrete inputs. -/
theorem parseHtml_title_preference_witness :
    (parseHtml
        { id := "i".toList, name := "N".toList, baseUrl := "https://s.ex".toList }
        "https://s.ex/p".toList { titleTag := " T ".toList } none []).title
      = jsTrim " T ".toList ∧
    (parseHtml
        { id := "i".toList, name := " ".toList, baseUrl := "https://s.ex".toList }
        "https://s.ex/p".toList { ogTitle := "OG".toList } none []).title
      = "OG".toList :=
  ⟨parseHtml_title_preference.1
      { id := "i".toList, name := "N".toList, baseUrl := "https://s.ex".toList }
      "https://s.ex/p".toList { titleTag := " T ".toList } none [] (by decide),
   parseHtml_title_preference.2.2.1
      { id := "i".toList, name := " ".toList, baseUrl := "https://s.ex".toList }
      "https://s.ex/p".toList { ogTitle := "OG".toList } none [] (by decide)
      (by decide)⟩

/-! Theorems for claims C10 and C1 (registry store). -/

/-- C10: when the normalised URL already case-insensitively matches a stored
entry, `addSourceToIndex` returns before the write step — the registry file
is read but not rewritten and its state is unchanged — and in general a call
writes the file back exactly when it appends a new entry. -/
theorem addSourceToIndex_duplicate_no_write :
    (∀ (reg : SourceIndex) url name ty notes prio u6 u8 b,
      normalizeUrl url = .ok b →
      (∃ x ∈ reg, lowerStr x.baseUrl = lowerStr b) →
      ∃ e, addSourceToIndex (some reg) url name ty notes prio u6 u8
          = .ok (⟨false, e⟩, some reg, 0) ∧ e ∈ reg ∧
        lowerStr e.baseUrl = lowerStr b) ∧
    (∀ fs url name ty notes prio u6 u8 r fs1 w,
      addSourceToIndex fs url name ty notes prio u6 u8 = .ok (r, fs1, w) →
      (r.added = false → w = 0 ∧ fs1 = fs) ∧ (r.added = true → 1 ≤ w)) := by
  constructor
  · intro reg url name ty notes prio u6 u8 b hnorm hex
    have hsome : (reg.find?
        (fun src => lowerStr src.baseUrl == lowerStr b)).isSome := by
      rw [List.find?_isSome]
      obtain ⟨x, hx, hb⟩ := hex
      exact ⟨x, hx, by simpa [beq_iff_eq] using hb⟩
    obtain ⟨e, he⟩ := Option.isSome_iff_exists.mp hsome
    refine ⟨e, ?_, List.mem_of_find?_eq_some he, ?_⟩
    · simp only [addSourceToIndex, hnorm, readIndex, ensureIndexFile, he]
    · have := List.find?_some he
      simpa [beq_iff_eq] using this
  · intro fs url name ty notes prio u6 u8 r fs1 w h
    simp only [addSourceToIndex] at h
    cases hnorm : normalizeUrl url with
    | error err => rw [hnorm] at h; exact absurd h (by simp)
    | ok b =>
      rw [hnorm] at h
      cases fs with
      | none =>
        simp only [readIndex, ensureIndexFile, List.find?] at h
        simp only [Except.ok.injEq, Prod.mk.injEq] at h
        obtain ⟨hr, hfs, hw⟩ := h
        subst hr
        refine ⟨fun hfalse => by simp at hfalse, fun _ => ?_⟩
        omega
      | some reg =>
        simp only [readIndex, ensureIndexFile] at h
        cases hfind : reg.find? (fun src => lowerStr src.baseUrl == lowerStr b) with
        | some e0 =>
          rw [hfind] at h
          simp only [Except.ok.injEq, Prod.mk.injEq] at h
          obtain ⟨hr, hfs, hw⟩ := h
          subst hr
          exact ⟨fun _ => ⟨hw.symm, hfs.symm⟩, fun htrue => by simp at htrue⟩
        | none =>
          rw [hfind] at h
          simp only [Except.ok.injEq, Prod.mk.injEq] at h
          obtain ⟨hr, hfs, hw⟩ := h
          subst hr
          refine ⟨fun hfalse => by simp at hfalse, fun _ => ?_⟩
          omega

/-- Witness for C10 at a concrete registry and trailing-slash variant. -/
theorem addSourceToIndex_duplicate_no_write_witness :
    ∃ e, addSourceToIndex
        (some [{ id := "e-x".toList, name := "E".toList,
                 baseUrl := "https://e.ex/a".toList }])
        "https://e.ex/a/".toList (some "F".toList) none none none
        "x2".toList "y2".toList
      = .ok (⟨false, e⟩,
          some [{ id := "e-x".toList, name := "E".toList,
                  baseUrl := "https://e.ex/a".toList }], 0) ∧
      e ∈ [{ id := "e-x".toList, name := "E".toList,
             baseUrl := "https://e.ex/a".toList }] ∧
      lowerStr e.baseUrl = lowerStr "https://e.ex/a".toList :=
  addSourceToIndex_duplicate_no_write.1
    [{ id := "e-x".toList, name := "E".toList, baseUrl := "https://e.ex/a".toList }]
    "https://e.ex/a/".toList (some "F".toList) none none none
    "x2".toList "y2".toList "https://e.ex/a".toList (by rfl)
    ⟨{ id := "e-x".toList, name := "E".toList, baseUrl := "https://e.ex/a".toList },
      by decide, by decide⟩

/-- C1 counterexample: two URLs differing only by a trailing slash
(`…/a/` vs `…/a//`) normalise to different strings, so after the first is
stored, adding the second creates a second registry entry (`added = true`
with a fresh entry, not `added = false` with the stored one) — even though
the two stored entries' URLs re-normalise to the same string. -/
theorem addSourceToIndex_trailing_slash_counterexample :
    addSourceToIndex (some []) "https://example.com/a/".toList
        (some "E".toList) none none none "x".toList "y".toList
      = .ok (⟨true, { id := "e-x".toList, name := "E".toList,
                      baseUrl := "https://example.com/a".toList }⟩,
          some [{ id := "e-x".toList, name := "E".toList,
                  baseUrl := "https://example.com/a".toList }], 1) ∧
    addSourceToIndex
        (some [{ id := "e-x".toList, name := "E".toList,
                 baseUrl := "https://example.com/a".toList }])
        "https://example.com/a//".toList (some "F".toList) none none none
        "x2".toList "y2".toList
      = .ok (⟨true, { id := "f-x2".toList, name := "F".toList,
                      baseUrl := "https://example.com/a/".toList }⟩,
          some [{ id := "e-x".toList, name := "E".toList,
                  baseUrl := "https://example.com/a".toList },
                { id := "f-x2".toList, name := "F".toList,
                  baseUrl := "https://example.com/a/".toList }], 1) ∧
    "https://example.com/a//".toList
      = "https://example.com/a/".toList ++ "/".toList ∧
    normalizeUrl "https://example.com/a/".toList
      = .ok "https://example.com/a".toList ∧
    normalizeUrl "https://example.com/a//".toList
      = .ok "https://example.com/a/".toList :=
  ⟨by rfl, by rfl, by rfl, by rfl, by rfl⟩

/-- C1 (amended): whenever the second URL's normalised form coincides
case-insensitively with the stored entry's URL — which holds for all
fragment and scheme/host-letter-case variants, and for trailing-slash
variants whose normalised forms agree — the second `addSourceToIndex` call
returns `added = false` with the very entry stored by the first call and
leaves the registry file untouched; and every add preserves pairwise
case-insensitive distinctness of the stored URLs, so a registry built by
adds never gains two entries with coinciding stored normalised URLs. -/
theorem addSourceToIndex_dedup_normalized :
    (∀ (reg : SourceIndex) url1 url2 name1 name2 ty1 ty2 no1 no2 pr1 pr2
        u6 u8 u6' u8' e fs1 w1 b2,
      addSourceToIndex (some reg) url1 name1 ty1 no1 pr1 u6 u8
          = .ok (⟨true, e⟩, fs1, w1) →
      normalizeUrl url2 = .ok b2 →
      lowerStr b2 = lowerStr e.baseUrl →
      addSourceToIndex fs1 url2 name2 ty2 no2 pr2 u6' u8'
          = .ok (⟨false, e⟩, fs1, 0)) ∧
    (∀ fs url name ty notes prio u6 u8 r reg2 w,
      (fs.getD []).Pairwise (fun a b => lowerStr a.baseUrl ≠ lowerStr b.baseUrl) →
      addSourceToIndex fs url name ty notes prio u6 u8 = .ok (r, some reg2, w) →
      reg2.Pairwise (fun a b => lowerStr a.baseUrl ≠ lowerStr b.baseUrl)) := by
  constructor
  · intro reg url1 url2 name1 name2 ty1 ty2 no1 no2 pr1 pr2
      u6 u8 u6' u8' e fs1 w1 b2 h1 hnorm2 hb2
    simp only [addSourceToIndex] at h1
    cases hnorm1 : normalizeUrl url1 with
    | error err => rw [hnorm1] at h1; exact absurd h1 (by simp)
    | ok b1 =>
      rw [hnorm1] at h1
      simp only [readIndex, ensureIndexFile] at h1
      cases hfind : reg.find? (fun src => lowerStr src.baseUrl == lowerStr b1) with
      | some e0 =>
        rw [hfind] at h1
        simp only [Except.ok.injEq, Prod.mk.injEq, AddSourceResult.mk.injEq] at h1
        exact absurd h1.1.1 (by simp)
      | none =>
        rw [hfind] at h1
        simp only [Except.ok.injEq, Prod.mk.injEq, AddSourceResult.mk.injEq] at h1
        obtain ⟨⟨-, hsrc⟩, hfs, -⟩ := h1
        have hbase : e.baseUrl = b1 := by rw [← hsrc]
        have hlow : lowerStr b2 = lowerStr b1 := by rw [hb2, hbase]
        have hpred : (fun src : MiningSource =>
            lowerStr src.baseUrl == lowerStr b2)
            = (fun src => lowerStr src.baseUrl == lowerStr b1) := by
          funext src
          rw [hlow]
        simp only [addSourceToIndex, hnorm2, ← hfs, readIndex, ensureIndexFile]
        rw [List.find?_append, hpred, hfind, hsrc]
        have hte : (List.find? (fun src => lowerStr src.baseUrl == lowerStr b1) [e])
            = some e := by
          simp [List.find?, hbase]
        simp only [Option.none_or]
        rw [hte]
  · intro fs url name ty notes prio u6 u8 r reg2 w hpw h
    simp only [addSourceToIndex] at h
    cases hnorm : normalizeUrl url with
    | error err => rw [hnorm] at h; exact absurd h (by simp)
    | ok b =>
      rw [hnorm] at h
      cases fs with
      | none =>
        simp only [readIndex, ensureIndexFile, List.find?] at h
        simp only [Except.ok.injEq, Prod.mk.injEq, Option.some.injEq] at h
        obtain ⟨-, hreg, -⟩ := h
        rw [← hreg]
        exact List.pairwise_singleton _ _
      | some reg =>
        simp only [readIndex, ensureIndexFile] at h
        simp only [Option.getD] at hpw
        cases hfind : reg.find?
            (fun src => lowerStr src.baseUrl == lowerStr b) with
        | some e0 =>
          rw [hfind] at h
          simp only [Except.ok.injEq, Prod.mk.injEq, Option.some.injEq] at h
          obtain ⟨-, hreg, -⟩ := h
          rw [← hreg]
          exact hpw
        | none =>
          rw [hfind] at h
          simp only [Except.ok.injEq, Prod.mk.injEq, Option.some.injEq] at h
          obtain ⟨-, hreg, -⟩ := h
          rw [← hreg]
          rw [List.pairwise_append]
          refine ⟨hpw, List.pairwise_singleton _ _, ?_⟩
          intro x hx y hy
          rcases List.mem_singleton.mp hy with rfl
          have hnone := List.find?_eq_none.mp hfind x hx
          simpa [beq_iff_eq] using hnone

/-- Witness for C1's amended theorem: a second add whose URL differs from the
first by scheme/host letter case, a trailing slash and a fragment is a no-op
returning the stored entry. -/
theorem addSourceToIndex_dedup_normalized_witness :
    addSourceToIndex
        (some [{ id := "arch-x6".toList, name := "Arch".toList,
                 baseUrl := "https://example.com/about".toList }])
        "HTTPS://example.COM/about/#top".toList (some "Other".toList)
        none none none "a6".toList "b8".toList
      = .ok (⟨false, { id := "arch-x6".toList, name := "Arch".toList,
                       baseUrl := "https://example.com/about".toList }⟩,
          some [{ id := "arch-x6".toList, name := "Arch".toList,
                  baseUrl := "https://example.com/about".toList }], 0) :=
  addSourceToIndex_dedup_normalized.1 []
    "https://Example.com/about".toList "HTTPS://example.COM/about/#top".toList
    (some "Arch".toList) (some "Other".toList) none none none none none none
    "x6".toList "b".toList "a6".toList "b8".toList
    { id := "arch-x6".toList, name := "Arch".toList,
      baseUrl := "https://example.com/about".toList }
    (some [{ id := "arch-x6".toList, name := "Arch".toList,
             baseUrl := "https://example.com/about".toList }]) 1
    "https://example.com/about".toList (by rfl) (by rfl) (by rfl)

/-! Theorem for claim C9 (resolver fallback to the remote list). -/

/-- C9: when no explicit target, random pick or forced remote flag is set,
the local sources file is configured but fails to load or validate, and the
remote endpoint responds successfully, the resolver returns exactly the
normalised, filtered remote list. -/
theorem resolveSources_local_failure_remote :
    ∀ opts env p e items,
      opts.targetUrl = none →
      opts.randomFromGlobal = false →
      opts.fetchRemoteSources = false →
      opts.sourcesPath = some p →
      env.localConfig = .error e →
      env.master = .response true items →
      resolveSources opts env
        = .ok ((items.enum.map (normalizeRemoteItem env.uuidFor)).filter
            (fun s => !s.baseUrl.isEmpty)) := by
  intro opts env p e items h1 h2 h3 h4 h5 h6
  simp only [resolveSources, h1, h2, h3, h4, h5, h6, loadSourcesFromMaster,
    Bool.not_true, Bool.false_eq_true, if_false]

/-- Witness for C9 at a concrete environment: one valid remote item is kept,
one without a base URL is filtered out, and the failing local file
contributes nothing. -/
theorem resolveSources_local_failure_remote_witness :
    resolveSources { sourcesPath := some "config/sources.json".toList }
        { localConfig := .error "bad".toList,
          master := .response true
            [{ name := some "M".toList, base_url := some "https://m.ex".toList },
             { name := some "empty".toList }] }
      = .ok [{ id := "https://m.ex".toList, name := "M".toList,
               baseUrl := "https://m.ex".toList }] :=
  (resolveSources_local_failure_remote
    { sourcesPath := some "config/sources.json".toList }
    { localConfig := .error "bad".toList,
      master := .response true
        [{ name := some "M".toList, base_url := some "https://m.ex".toList },
         { name := some "empty".toList }] }
    "config/sources.json".toList "bad".toList
    [{ name := some "M".toList, base_url := some "https://m.ex".toList },
     { name := some "empty".toList }]
    rfl rfl rfl rfl rfl rfl).trans (by rfl)

end HistoCoin
